import Mathlib

/-!
Verification of the breadcrumb core package: a shallow embedding of
`packages/core/src/utils/breadcrumb-utils.ts`,
`packages/core/src/utils/event-emitter.ts` and
`packages/core/src/managers/breadcrumb-manager.ts`, together with proofs
about the embedded operations.

Modelling conventions:
- JavaScript objects become Lean structures with value semantics; the
  `deepClone` defensive copies of the source are identity on values.
- `BreadcrumbItem` keeps the fields the manager logic reads or rewrites
  (`key`) plus a representative sample of the optional payload fields
  (`label`, `icon`, `href`, `path`, `disabled`, `clickable`); the remaining
  purely presentational fields (`children`, `meta`, `tooltip`, ...) are
  carried by the same mechanism and are omitted.
- `key: string` uses `""` for a missing/empty key (both are falsy in the
  source's `item.key || generateKey(...)` test).
- `generateKey` concatenates its prefix with a wall-clock timestamp and a
  random suffix; the timestamp/random part is abstracted as an opaque
  nonce string supplied per call (`nonce : Nat → String`, indexed by the
  item position, resolving the environment nondeterminism at call time).
- Partial-object arguments (`Partial<...>` in TypeScript) become
  structures of `Option`-wrapped fields; a present field overrides.
- Counts and lengths are `Nat`; the user-supplied insertion index of
  `addItem` is an `Int` (JavaScript numbers may be negative there).
-/

namespace Breadcrumb

/-- One breadcrumb item (`BreadcrumbItem` of `types/breadcrumb-item.ts`). -/
structure Item where
  key : String
  label : String
  icon : Option String := none
  href : Option String := none
  path : Option String := none
  disabled : Option Bool := none
  clickable : Option Bool := none
deriving Repr, DecidableEq

/-- A `Partial<Omit<BreadcrumbItem, 'key'>>` record as taken by `updateItem`:
every field optional, the `key` field absent by the declared type. -/
structure ItemUpdates where
  label : Option String := none
  icon : Option (Option String) := none
  href : Option (Option String) := none
  path : Option (Option String) := none
  disabled : Option (Option Bool) := none
  clickable : Option (Option Bool) := none
deriving Repr, DecidableEq

/-- The object spread `{...item, ...updates}` for an `updates` without `key`. -/
def applyUpdates (it : Item) (u : ItemUpdates) : Item :=
  { key := it.key
    label := u.label.getD it.label
    icon := u.icon.getD it.icon
    href := u.href.getD it.href
    path := u.path.getD it.path
    disabled := u.disabled.getD it.disabled
    clickable := u.clickable.getD it.clickable }

/-- A `Partial<BreadcrumbItem>` record (used for `homeItem` overrides). -/
structure ItemPatch where
  key : Option String := none
  label : Option String := none
  icon : Option (Option String) := none
  href : Option (Option String) := none
  path : Option (Option String) := none
  disabled : Option (Option Bool) := none
  clickable : Option (Option Bool) := none
deriving Repr, DecidableEq

/-- The object spread `{...item, ...patch}` for a full `Partial<BreadcrumbItem>`. -/
def applyPatch (it : Item) (p : ItemPatch) : Item :=
  { key := p.key.getD it.key
    label := p.label.getD it.label
    icon := p.icon.getD it.icon
    href := p.href.getD it.href
    path := p.path.getD it.path
    disabled := p.disabled.getD it.disabled
    clickable := p.clickable.getD it.clickable }

/-- `DEFAULT_HOME_ITEM` of `types/breadcrumb-config.ts`. -/
def DEFAULT_HOME_ITEM : Item :=
  { key := "home", label := "首页", path := some "/", icon := some "home" }

/-- `generateKey(prefix)` of `breadcrumb-utils.ts`: the prefix followed by a
dash and the `Date.now()`-and-random tail, the tail abstracted as `nonce`. -/
def generateKey (pre : String) (nonce : String) : String :=
  pre ++ "-" ++ nonce

/-- Recursion core of `normalizeItems`: maps the list with its position
index, replacing an empty key by a generated one. -/
def normalizeItemsAux (nonce : Nat → String) : Nat → List Item → List Item
  | _, [] => []
  | i, it :: rest =>
    (if it.key = "" then
      { it with key := generateKey ("item-" ++ toString i) (nonce i) }
    else it) :: normalizeItemsAux nonce (i + 1) rest

/-- `normalizeItems(items)` of `breadcrumb-utils.ts`: ensure every item has a
key, generating `item-INDEX-...` keys for the missing ones. -/
def normalizeItems (items : List Item) (nonce : Nat → String) : List Item :=
  normalizeItemsAux nonce 0 items

/-- Result record of `calculateVisibleItems`. -/
structure VisibleItems where
  beforeItems : List Item
  collapsedItems : List Item
  afterItems : List Item
  needsCollapse : Bool
deriving Repr, DecidableEq

/-- `calculateVisibleItems(items, config)` of `breadcrumb-utils.ts`.
JavaScript `slice(a, b)` with `0 ≤ a ≤ b` is `(take b).drop a`, and
`slice(a)` is `drop a`; `!maxItems` is `maxItems = 0`. -/
def calculateVisibleItems (items : List Item)
    (maxItems itemsBeforeCollapse itemsAfterCollapse : Nat) : VisibleItems :=
  if maxItems = 0 ∨ items.length ≤ maxItems then
    { beforeItems := items, collapsedItems := [], afterItems := []
      needsCollapse := false }
  else
    let effectiveBefore := min itemsBeforeCollapse (items.length - 1)
    let effectiveAfter := min itemsAfterCollapse (items.length - effectiveBefore)
    { beforeItems := items.take effectiveBefore
      collapsedItems := (items.take (items.length - effectiveAfter)).drop effectiveBefore
      afterItems := items.drop (items.length - effectiveAfter)
      needsCollapse := true }

/-- The manager's merged configuration (the `config` field of
`BreadcrumbManager`): the collapse-relevant and behaviour-relevant fields.
Purely presentational fields (`separator`, `size`, `autoGenerate`,
`lastItemClickable`) are never read by the embedded logic and are omitted. -/
structure Config where
  maxItems : Nat := 0
  itemsBeforeCollapse : Nat := 1
  itemsAfterCollapse : Nat := 2
  showHome : Bool := true
  homeItem : Item := DEFAULT_HOME_ITEM
  enableHistory : Bool := false
  maxHistoryLength : Nat := 50
deriving Repr, DecidableEq

/-- Constructor input `BreadcrumbManagerConfig`: every field optional
(`Option` marks presence, as with a supplied property). -/
structure ManagerConfig where
  items : List Item := []
  maxItems : Option Nat := none
  itemsBeforeCollapse : Option Nat := none
  itemsAfterCollapse : Option Nat := none
  showHome : Option Bool := none
  homeItem : Option ItemPatch := none
  enableHistory : Option Bool := none
  maxHistoryLength : Option Nat := none
deriving Repr, DecidableEq

/-- Argument of `updateConfig` — `Partial<BreadcrumbConfig>` restricted to
the fields the manager logic reacts to (`'x' in config` is `Option.isSome`). -/
structure ConfigPatch where
  maxItems : Option Nat := none
  itemsBeforeCollapse : Option Nat := none
  itemsAfterCollapse : Option Nat := none
  showHome : Option Bool := none
  homeItem : Option ItemPatch := none
deriving Repr, DecidableEq

/-- `BreadcrumbSnapshot`; the source also records a wall-clock `timestamp`
(`Date.now()`) that no manager logic ever reads back, abstracted away here. -/
structure Snapshot where
  items : List Item
  expanded : Bool
  version : Nat
deriving Repr, DecidableEq

/-- The queued batch operations (`BatchOperation`). -/
inductive BatchOp where
  | add (item : Item) (index : Option Int)
  | remove (key : String)
  | update (key : String) (updates : ItemUpdates)
  | replace (items : List Item)
deriving Repr, DecidableEq

/-- The errors the manager throws, plus the exception propagated out of a
user callback by `batch`. -/
inductive MError where
  | destroyedError
  | invalidIndex (i : Int)
  | duplicateKey (k : String)
  | callbackError
deriving Repr, DecidableEq

/-- The full mutable state of a `BreadcrumbManager` instance: its config,
its `BreadcrumbState` fields, the history machinery and the lifecycle /
batching flags.  The event emitter's listener table is modelled separately
(see `Emitter` below); emission never changes the fields modelled here. -/
structure Manager where
  config : Config
  items : List Item
  expanded : Bool
  visibleItems : VisibleItems
  version : Nat
  history : List Snapshot
  historyIndex : Int
  isBatching : Bool
  batchQueue : List BatchOp
  destroyed : Bool
deriving Repr, DecidableEq

/-- Shorthand for running the visibility calculator against a config, as
`calculateVisibleItems(items, this.config)` does. -/
def calcVisible (items : List Item) (cfg : Config) : VisibleItems :=
  calculateVisibleItems items cfg.maxItems cfg.itemsBeforeCollapse cfg.itemsAfterCollapse

/-- `deepClone` of `breadcrumb-utils.ts` — identity under value semantics
(structuredClone / JSON round-trip of plain data). -/
def deepClone (x : α) : α := x

/-- `createSnapshot()`: a snapshot of the current state. -/
def createSnapshot (m : Manager) : Snapshot :=
  { items := deepClone m.items, expanded := m.expanded, version := m.version }

/-- `saveToHistory()`: truncate any future entries past the pointer, push a
snapshot of the current state, and evict the oldest entry when the bound is
exceeded.  JavaScript `slice(0, k)` is `take k` and `shift()` is `drop 1`. -/
def saveToHistory (m : Manager) : Manager :=
  let hist :=
    if m.historyIndex < (m.history.length : Int) - 1 then
      m.history.take (m.historyIndex + 1).toNat
    else m.history
  let hist := hist ++ [createSnapshot m]
  if hist.length > m.config.maxHistoryLength then
    { m with history := hist.drop 1, historyIndex := (hist.length : Int) - 2 }
  else
    { m with history := hist, historyIndex := (hist.length : Int) - 1 }

/-- A `Partial<BreadcrumbState>` argument of the private `updateState`. -/
structure StatePatch where
  items : Option (List Item) := none
  expanded : Option Bool := none
  visibleItems : Option VisibleItems := none
deriving Repr, DecidableEq

/-- Private `updateState(partial)`: spread the patch over the state, bump
the version, and record history unless disabled or batching. -/
def updateState (m : Manager) (p : StatePatch) : Manager :=
  let m' : Manager :=
    { m with
      items := p.items.getD m.items
      expanded := p.expanded.getD m.expanded
      visibleItems := p.visibleItems.getD m.visibleItems
      version := m.version + 1 }
  if m'.config.enableHistory ∧ ¬ m'.isBatching then saveToHistory m' else m'

/-- Private `buildItems(items)`: normalize, then prepend the configured home
item when `showHome` is set and no normalized item already has key `home`. -/
def buildItems (cfg : Config) (items : List Item) (nonce : Nat → String) : List Item :=
  let normalized := normalizeItems items nonce
  if cfg.showHome ∧ ¬ (normalized.any (fun it => it.key == "home")) then
    cfg.homeItem :: normalized
  else normalized

/-- The body of `setItems` after the destruction check (also reached from
`removeItem`, `updateItem`, `addItem` and `executeBatch`). -/
def setItemsU (m : Manager) (items : List Item) (nonce : Nat → String) : Manager :=
  let newItems := buildItems m.config items nonce
  updateState m
    { items := some newItems
      visibleItems := some (calcVisible newItems m.config)
      expanded := some false }

/-- `setItems(items)`: wholesale replacement; throws when destroyed. -/
def setItems (m : Manager) (items : List Item) (nonce : Nat → String) :
    Manager × Option MError :=
  if m.destroyed then (m, some .destroyedError) else (setItemsU m items nonce, none)

/-- JavaScript `Array.prototype.splice` start-index clamping: negative
indices count from the end (clamped at 0), large ones clamp to the length. -/
def spliceIndex (len : Nat) (i : Int) : Nat :=
  if i < 0 then ((len : Int) + i).toNat else min i.toNat len

/-- List insertion at a (pre-clamped) position, `splice(n, 0, x)`. -/
def insertAt (l : List α) (n : Nat) (x : α) : List α :=
  l.take n ++ [x] ++ l.drop n

/-- `addItem(item, index?)`: queue while batching; otherwise validate the
index and the key and delegate to `setItems`. -/
def addItem (m : Manager) (item : Item) (index : Option Int) (nonce : Nat → String) :
    Manager × Option MError :=
  if m.destroyed then (m, some .destroyedError)
  else if m.isBatching then
    ({ m with batchQueue := m.batchQueue ++ [.add item index] }, none)
  else
    let insertIndex : Int := index.getD m.items.length
    if insertIndex < 0 ∨ insertIndex > (m.items.length : Int) then
      (m, some (.invalidIndex insertIndex))
    else if m.items.any (fun i => i.key == item.key) then
      (m, some (.duplicateKey item.key))
    else
      (setItemsU m (insertAt m.items insertIndex.toNat item) nonce, none)

/-- A blank item, standing for the out-of-bounds `undefined` of an index
access (never reached on the paths proved below). -/
def blankItem : Item := { key := "", label := "" }

/-- JavaScript `Array.prototype.findIndex`: the first index satisfying the
predicate, or `-1`. -/
def findIndex (p : α → Bool) : List α → Int
  | [] => -1
  | it :: rest =>
    if p it then 0
    else
      let r := findIndex p rest
      if r = -1 then -1 else r + 1

/-- `removeItem(key) -> bool`: queue while batching (returning `true`);
otherwise filter the list out and commit, reporting whether a match existed. -/
def removeItem (m : Manager) (key : String) (nonce : Nat → String) :
    Manager × Bool × Option MError :=
  if m.destroyed then (m, false, some .destroyedError)
  else if m.isBatching then
    ({ m with batchQueue := m.batchQueue ++ [.remove key] }, true, none)
  else
    let index := findIndex (fun it => it.key == key) m.items
    if index = -1 then (m, false, none)
    else (setItemsU m (m.items.filter (fun it => ¬ it.key == key)) nonce, true, none)

/-- `updateItem(key, updates) -> bool`: queue while batching (returning
`true`); otherwise merge into the first item with the key and commit. -/
def updateItem (m : Manager) (key : String) (u : ItemUpdates) (nonce : Nat → String) :
    Manager × Bool × Option MError :=
  if m.destroyed then (m, false, some .destroyedError)
  else if m.isBatching then
    ({ m with batchQueue := m.batchQueue ++ [.update key u] }, true, none)
  else
    let index := findIndex (fun it => it.key == key) m.items
    if index = -1 then (m, false, none)
    else
      (setItemsU m
        (m.items.set index.toNat
          (applyUpdates (m.items.getD index.toNat blankItem) u)) nonce,
       true, none)

/-- One step of `executeBatch`'s replay loop over the queued operations. -/
def executeBatchStep (items : List Item) : BatchOp → List Item
  | .add item index =>
    insertAt items (spliceIndex items.length (index.getD items.length)) item
  | .remove key => items.filter (fun it => ¬ it.key == key)
  | .update key u =>
    let index := findIndex (fun it => it.key == key) items
    if index = -1 then items
    else items.set index.toNat (applyUpdates (items.getD index.toNat blankItem) u)
  | .replace new => new

/-- `batch(callback)`: the callback is abstracted as the list of operations
it queues plus whether it throws.  On a throw the exception propagates and
the `finally` block clears the batching flag and queue; otherwise
`executeBatch` replays the queue and commits through `setItems` — note that
this happens while `isBatching` is still `true` (the flag is only cleared in
the `finally` block afterwards). -/
def batch (m : Manager) (ops : List BatchOp) (throws : Bool) (nonce : Nat → String) :
    Manager × Option MError :=
  if m.destroyed then (m, some .destroyedError)
  else if throws then
    ({ m with isBatching := false, batchQueue := [] }, some .callbackError)
  else
    let m1 : Manager := { m with isBatching := true, batchQueue := ops }
    let newItems := ops.foldl executeBatchStep m1.items
    let m2 := setItemsU m1 newItems nonce
    ({ m2 with isBatching := false, batchQueue := [] }, none)

/-- `setExpanded(expanded)`: no-op when unchanged; otherwise commit (and
emit `expandChange`, which does not touch the state modelled here). -/
def setExpanded (m : Manager) (expanded : Bool) : Manager × Option MError :=
  if m.destroyed then (m, some .destroyedError)
  else if m.expanded = expanded then (m, none)
  else (updateState m { expanded := some expanded }, none)

/-- `toggleExpand()`. -/
def toggleExpand (m : Manager) : Manager × Option MError :=
  if m.destroyed then (m, some .destroyedError)
  else setExpanded m (!m.expanded)

/-- `Object.assign(this.config, config)` for the scalar fields; the
`homeItem` field is handled separately by `updateConfig` (it is re-merged
over the defaults whenever present before any read). -/
def assignConfig (cfg : Config) (p : ConfigPatch) : Config :=
  { cfg with
    maxItems := p.maxItems.getD cfg.maxItems
    itemsBeforeCollapse := p.itemsBeforeCollapse.getD cfg.itemsBeforeCollapse
    itemsAfterCollapse := p.itemsAfterCollapse.getD cfg.itemsAfterCollapse
    showHome := p.showHome.getD cfg.showHome }

/-- `updateConfig(config)`: merge, recompute the projection when a collapse
number was supplied, and rebuild the list when `showHome`/`homeItem` was. -/
def updateConfig (m : Manager) (p : ConfigPatch) (nonce : Nat → String) :
    Manager × Option MError :=
  if m.destroyed then (m, some .destroyedError)
  else
    let m := { m with config := assignConfig m.config p }
    let m :=
      if p.maxItems.isSome ∨ p.itemsBeforeCollapse.isSome ∨ p.itemsAfterCollapse.isSome then
        updateState m { visibleItems := some (calcVisible m.items m.config) }
      else m
    if p.showHome.isSome ∨ p.homeItem.isSome then
      let m :=
        match p.homeItem with
        | some hp => { m with config := { m.config with homeItem := applyPatch DEFAULT_HOME_ITEM hp } }
        | none => m
      (setItemsU m (m.items.filter (fun it => ¬ it.key == "home")) nonce, none)
    else (m, none)

/-- `restoreSnapshot(snapshot)`: a committing restore (it goes through
`updateState`, so it bumps the version and can append history). -/
def restoreSnapshot (m : Manager) (s : Snapshot) : Manager × Option MError :=
  if m.destroyed then (m, some .destroyedError)
  else
    (updateState m
      { items := some (deepClone s.items)
        expanded := some s.expanded
        visibleItems := some (calcVisible s.items m.config) }, none)

/-- Private `restoreSnapshotWithoutHistory(snapshot)`. -/
def restoreSnapshotWithoutHistory (m : Manager) (s : Snapshot) : Manager :=
  { m with
    items := deepClone s.items
    expanded := s.expanded
    visibleItems := calcVisible s.items m.config
    version := m.version + 1 }

/-- `undo()`: move the pointer back and restore without recording history.
`none` stands for the crash the source would hit on an out-of-bounds
history access (`history[historyIndex]` being `undefined`). -/
def undo (m : Manager) : Option (Manager × Bool) :=
  if ¬ m.config.enableHistory ∨ m.historyIndex ≤ 0 then some (m, false)
  else
    let idx := m.historyIndex - 1
    match m.history.get? idx.toNat with
    | some s => some ({ restoreSnapshotWithoutHistory m s with historyIndex := idx }, true)
    | none => none

/-- `redo()`: move the pointer forward and restore without recording. -/
def redo (m : Manager) : Option (Manager × Bool) :=
  if ¬ m.config.enableHistory ∨ (m.history.length : Int) - 1 ≤ m.historyIndex then
    some (m, false)
  else
    let idx := m.historyIndex + 1
    match m.history.get? idx.toNat with
    | some s => some ({ restoreSnapshotWithoutHistory m s with historyIndex := idx }, true)
    | none => none

/-- `clearHistory()` (no destruction check in the source). -/
def clearHistory (m : Manager) : Manager :=
  let m := { m with history := [], historyIndex := -1 }
  if m.config.enableHistory then saveToHistory m else m

/-- `destroy()`: idempotent; clears subscriptions (emitter side), history
and queue, and flips the destroyed flag. -/
def destroy (m : Manager) : Manager :=
  if m.destroyed then m
  else { m with history := [], batchQueue := [], destroyed := true }

/-- `handleClick(item, index, event)`: destruction check, then emission only
(the emitter is modelled separately; the manager state is unchanged). -/
def handleClick (m : Manager) : Manager × Option MError :=
  if m.destroyed then (m, some .destroyedError) else (m, none)

/-- `handleDropdownSelect(parentItem, selectedItem, event)`: destruction
check, then emission only. -/
def handleDropdownSelect (m : Manager) : Manager × Option MError :=
  if m.destroyed then (m, some .destroyedError) else (m, none)

/-- The constructor `new BreadcrumbManager(config)`: merge the defaults,
build the initial item list, initialize the state, and record the initial
snapshot when history is enabled. -/
def mkManager (c : ManagerConfig) (nonce : Nat → String) : Manager :=
  let mergedHome : Item :=
    match c.homeItem with
    | some hp => applyPatch DEFAULT_HOME_ITEM hp
    | none => DEFAULT_HOME_ITEM
  let cfg : Config :=
    { maxItems := c.maxItems.getD 0
      itemsBeforeCollapse := c.itemsBeforeCollapse.getD 1
      itemsAfterCollapse := c.itemsAfterCollapse.getD 2
      showHome := c.showHome.getD true
      homeItem := mergedHome
      enableHistory := c.enableHistory.getD false
      maxHistoryLength := c.maxHistoryLength.getD 50 }
  let initialItems := buildItems cfg c.items nonce
  let m : Manager :=
    { config := cfg
      items := initialItems
      expanded := false
      visibleItems := calcVisible initialItems cfg
      version := 0
      history := []
      historyIndex := -1
      isBatching := false
      batchQueue := []
      destroyed := false }
  if cfg.enableHistory then saveToHistory m else m

/-- `getItems()` — a deep copy of the current list. -/
def getItems (m : Manager) : List Item := deepClone m.items

/-! ### Event emitter (`utils/event-emitter.ts`)

Handler functions are abstracted by a numeric identity (JavaScript function
identity, as compared by `off`'s `h.handler === handler`); whether a given
handler throws when invoked is supplied to `emit` as an environment
`throwsOn : Nat → Bool`.  Handlers are modelled as not re-entering the
emitter (the snapshot copy taken by `emit` makes the dispatch list
independent of such mutations anyway). -/

/-- `HandlerInfo`: a registration entry. -/
structure HandlerInfo where
  id : Nat
  priority : Int
  once : Bool
deriving Repr, DecidableEq

/-- The `listeners` map of `EventEmitter`, as an association list in map
insertion order. -/
structure Emitter where
  listeners : List (String × List HandlerInfo) := []
deriving Repr, DecidableEq

/-- `listeners.get(event)` with a missing entry read as the empty list. -/
def getHandlers (e : Emitter) (ev : String) : List HandlerInfo :=
  (e.listeners.lookup ev).getD []

/-- `listeners.set(event, hs)`: replace in place, or append a new entry. -/
def setHandlers (e : Emitter) (ev : String) (hs : List HandlerInfo) : Emitter :=
  if e.listeners.any (fun p => p.1 == ev) then
    { listeners := e.listeners.map (fun p => if p.1 == ev then (ev, hs) else p) }
  else
    { listeners := e.listeners ++ [(ev, hs)] }

/-- `listeners.delete(event)`. -/
def deleteEvent (e : Emitter) (ev : String) : Emitter :=
  { listeners := e.listeners.filter (fun p => ¬ p.1 == ev) }

/-- Private `addListener(event, handler, priority, once)`: insert before the
first entry of strictly greater priority, or push at the end. -/
def addListener (e : Emitter) (ev : String) (id : Nat) (priority : Int) (once : Bool) :
    Emitter :=
  let hs := getHandlers e ev
  let info : HandlerInfo := { id := id, priority := priority, once := once }
  let insertIndex := findIndex (fun h => priority < h.priority) hs
  let hs' :=
    if insertIndex = -1 then hs ++ [info]
    else hs.take insertIndex.toNat ++ [info] ++ hs.drop insertIndex.toNat
  setHandlers e ev hs'

/-- `on(event, handler, priority)` (`on` itself is notation in Mathlib). -/
def onEvent (e : Emitter) (ev : String) (id : Nat) (priority : Int := 0) : Emitter :=
  addListener e ev id priority false

/-- `once(event, handler, priority)`. -/
def once (e : Emitter) (ev : String) (id : Nat) (priority : Int := 0) : Emitter :=
  addListener e ev id priority true

/-- `off(event, handler)`: splice out the first entry with the handler's
identity, deleting the map entry when it empties. -/
def off (e : Emitter) (ev : String) (id : Nat) : Emitter :=
  let hs := getHandlers e ev
  let index := findIndex (fun h => h.id == id) hs
  if index = -1 then e
  else
    let hs' := hs.take index.toNat ++ hs.drop (index.toNat + 1)
    if hs'.isEmpty then deleteEvent e ev else setHandlers e ev hs'

/-- The dispatch loop of `emit` over the handler snapshot: returns the ids
invoked (in order) and the once-entries collected for removal.  A handler
that throws is invoked but not collected (the `once` check sits after the
call); with `continueOnError` disabled a throw stops the loop. -/
def runHandlers (throwsOn : Nat → Bool) (continueOnError : Bool) :
    List HandlerInfo → List Nat × List HandlerInfo
  | [] => ([], [])
  | info :: rest =>
    if throwsOn info.id then
      if continueOnError then
        let r := runHandlers throwsOn continueOnError rest
        (info.id :: r.1, r.2)
      else ([info.id], [])
    else
      let r := runHandlers throwsOn continueOnError rest
      (info.id :: r.1, if info.once then info :: r.2 else r.2)

/-- `emit(event, data) -> bool`: invoke a snapshot of the current handlers,
then unsubscribe the collected once-entries; returns the ids invoked and
whether any handler existed. -/
def emit (e : Emitter) (ev : String) (throwsOn : Nat → Bool) (continueOnError : Bool) :
    Emitter × List Nat × Bool :=
  let hs := getHandlers e ev
  if hs.isEmpty then (e, [], false)
  else
    let r := runHandlers throwsOn continueOnError hs
    (r.2.foldl (fun acc info => off acc ev info.id) e, r.1, true)

/-! ### Basic lemmas about the pure utilities -/

theorem generateKey_length (pre nonce : String) :
    (generateKey pre nonce).length = pre.length + 1 + nonce.length := by
  simp only [generateKey, String.length_append]
  have h1 : ("-" : String).length = 1 := by decide
  omega

theorem generateKey_item_ne_empty (i : Nat) (s : String) :
    generateKey ("item-" ++ toString i) s ≠ "" := by
  intro h
  have hl := congrArg String.length h
  rw [generateKey_length] at hl
  simp [String.length_append] at hl

theorem generateKey_item_ne_home (i : Nat) (s : String) :
    generateKey ("item-" ++ toString i) s ≠ "home" := by
  intro h
  have hl := congrArg String.length h
  rw [generateKey_length] at hl
  have h5 : ("item-" ++ toString i).length = 5 + (toString i).length := by
    simp [String.length_append]
    decide
  have h4 : ("home" : String).length = 4 := by decide
  rw [h5, h4] at hl
  omega

theorem normalizeItemsAux_length (nonce : Nat → String) (i : Nat) (l : List Item) :
    (normalizeItemsAux nonce i l).length = l.length := by
  induction l generalizing i with
  | nil => rfl
  | cons it rest ih => simp [normalizeItemsAux, ih]

theorem normalizeItemsAux_key_ne_empty (nonce : Nat → String) (i : Nat) (l : List Item) :
    ∀ it ∈ normalizeItemsAux nonce i l, it.key ≠ "" := by
  induction l generalizing i with
  | nil => intro it h; cases h
  | cons hd rest ih =>
    intro it h
    rcases (List.mem_cons).1 h with h1 | h2
    · subst h1
      by_cases hk : hd.key = ""
      · simp only [normalizeItemsAux, if_pos hk]
        exact generateKey_item_ne_empty i (nonce i)
      · simp only [normalizeItemsAux, if_neg hk]
        exact hk
    · exact ih (i + 1) it h2

theorem normalizeItemsAux_of_keys_ne_empty (nonce : Nat → String) (i : Nat)
    (l : List Item) (h : ∀ it ∈ l, it.key ≠ "") :
    normalizeItemsAux nonce i l = l := by
  induction l generalizing i with
  | nil => rfl
  | cons hd rest ih =>
    have hhd : hd.key ≠ "" := h hd (List.mem_cons_self hd rest)
    simp only [normalizeItemsAux, if_neg hhd]
    rw [ih (i + 1) (fun it hit => h it (List.mem_cons_of_mem hd hit))]

/-- `normalizeItems` is the identity on lists whose items all carry a key. -/
theorem normalizeItems_of_keys_ne_empty (l : List Item) (nonce : Nat → String)
    (h : ∀ it ∈ l, it.key ≠ "") : normalizeItems l nonce = l :=
  normalizeItemsAux_of_keys_ne_empty nonce 0 l h

theorem normalizeItemsAux_get (nonce : Nat → String) (i : Nat) (l : List Item) :
    ∀ (j : Nat) (h : j < l.length) (h' : j < (normalizeItemsAux nonce i l).length),
      (normalizeItemsAux nonce i l).get ⟨j, h'⟩ =
        if (l.get ⟨j, h⟩).key = "" then
          { l.get ⟨j, h⟩ with
            key := generateKey ("item-" ++ toString (i + j)) (nonce (i + j)) }
        else l.get ⟨j, h⟩ := by
  induction l generalizing i with
  | nil => intro j h; cases h
  | cons hd rest ih =>
    intro j h h'
    cases j with
    | zero => simp [normalizeItemsAux]
    | succ k =>
      have hk : k < rest.length := Nat.lt_of_succ_lt_succ h
      have hk' : k < (normalizeItemsAux nonce (i + 1) rest).length := by
        rw [normalizeItemsAux_length]; exact hk
      have := ih (i + 1) k hk hk'
      simp only [normalizeItemsAux, List.get_cons_succ]
      rw [this]
      have harith : i + 1 + k = i + (k + 1) := by omega
      rw [harith]

/-! ### C1: the visibility calculator -/

/-- C1: for every item list and collapse config, `calculateVisibleItems`
returns the whole list uncollapsed when `maxItems` is 0 or not exceeded;
otherwise it splits at `effectiveBefore = min(itemsBeforeCollapse, len-1)`
and `effectiveAfter = min(itemsAfterCollapse, len-effectiveBefore)` into the
specified three slices with `needsCollapse = true`, and the three segments
concatenate back to the input list in order. -/
theorem calculateVisibleItems_spec (items : List Item) (maxItems b a : Nat) :
    ((maxItems = 0 ∨ items.length ≤ maxItems) →
      calculateVisibleItems items maxItems b a =
        { beforeItems := items, collapsedItems := [], afterItems := []
          needsCollapse := false }) ∧
    (¬ (maxItems = 0 ∨ items.length ≤ maxItems) →
      calculateVisibleItems items maxItems b a =
        { beforeItems := items.take (min b (items.length - 1))
          collapsedItems :=
            (items.take (items.length -
              min a (items.length - min b (items.length - 1)))).drop
                (min b (items.length - 1))
          afterItems := items.drop (items.length -
            min a (items.length - min b (items.length - 1)))
          needsCollapse := true } ∧
      (calculateVisibleItems items maxItems b a).beforeItems ++
        (calculateVisibleItems items maxItems b a).collapsedItems ++
          (calculateVisibleItems items maxItems b a).afterItems = items) := by
  constructor
  · intro h
    simp only [calculateVisibleItems, if_pos h]
  · intro h
    have heq : calculateVisibleItems items maxItems b a =
        { beforeItems := items.take (min b (items.length - 1))
          collapsedItems :=
            (items.take (items.length -
              min a (items.length - min b (items.length - 1)))).drop
                (min b (items.length - 1))
          afterItems := items.drop (items.length -
            min a (items.length - min b (items.length - 1)))
          needsCollapse := true } := by
      simp only [calculateVisibleItems, if_neg h]
    refine ⟨heq, ?_⟩
    rw [heq]
    simp only
    set eb := min b (items.length - 1) with heb
    set ea := min a (items.length - eb) with hea
    have hlen : 1 ≤ items.length := by
      rcases Nat.lt_or_ge maxItems items.length with hlt | hge
      · omega
      · exact absurd (Or.inr hge) h
    have heb_le : eb ≤ items.length - ea := by
      have h1 : eb ≤ items.length - 1 := Nat.min_le_right _ _
      have h2 : ea ≤ items.length - eb := Nat.min_le_right _ _
      omega
    have hfront : items.take eb ++ (items.take (items.length - ea)).drop eb =
        items.take (items.length - ea) := by
      conv_rhs => rw [← List.take_append_drop eb (items.take (items.length - ea))]
      congr 1
      rw [List.take_take, min_eq_left heb_le]
    rw [hfront, List.take_append_drop]

/-- Witness for C1 at the spec's scenario: 6 items, `maxItems=4`,
`itemsBeforeCollapse=1`, `itemsAfterCollapse=2`. -/
def c1Items : List Item :=
  [{ key := "k1", label := "1" }, { key := "k2", label := "2" },
   { key := "k3", label := "3" }, { key := "k4", label := "4" },
   { key := "k5", label := "5" }, { key := "k6", label := "6" }]

theorem calculateVisibleItems_spec_witness :
    ¬ ((4 : Nat) = 0 ∨ c1Items.length ≤ 4) ∧
    ((calculateVisibleItems c1Items 4 1 2).beforeItems ++
      (calculateVisibleItems c1Items 4 1 2).collapsedItems ++
        (calculateVisibleItems c1Items 4 1 2).afterItems = c1Items) :=
  ⟨by decide, ((calculateVisibleItems_spec c1Items 4 1 2).2 (by decide)).2⟩

/-! ### C7: the item normalizer -/

/-- C7: `normalizeItems` is idempotent (re-normalizing its output returns it
unchanged, so keys and order are identical), every output item has a
non-empty key, and position-wise each already-keyed item is returned
unchanged while only empty-keyed items get a generated key (so order and
all other fields are preserved). -/
theorem normalizeItems_spec (items : List Item) (n n' : Nat → String) :
    (normalizeItems (normalizeItems items n) n' = normalizeItems items n) ∧
    (∀ it ∈ normalizeItems items n, it.key ≠ "") ∧
    ((normalizeItems items n).length = items.length) ∧
    (∀ (i : Nat) (h : i < items.length) (h' : i < (normalizeItems items n).length),
      (normalizeItems items n).get ⟨i, h'⟩ =
        if (items.get ⟨i, h⟩).key = "" then
          { items.get ⟨i, h⟩ with key := generateKey ("item-" ++ toString i) (n i) }
        else items.get ⟨i, h⟩) := by
  refine ⟨?_, ?_, ?_, ?_⟩
  · exact normalizeItems_of_keys_ne_empty _ n'
      (normalizeItemsAux_key_ne_empty n 0 items)
  · exact normalizeItemsAux_key_ne_empty n 0 items
  · exact normalizeItemsAux_length n 0 items
  · intro i h h'
    have := normalizeItemsAux_get n 0 items i h h'
    simpa using this

/-- Witness for C7 at a concrete mixed list (one item keyed, one not). -/
def c7Items : List Item :=
  [{ key := "a", label := "A" }, { key := "", label := "B" }]

theorem normalizeItems_spec_witness :
    normalizeItems (normalizeItems c7Items (fun _ => "t")) (fun _ => "u") =
      normalizeItems c7Items (fun _ => "t") ∧
    ((0 : Nat) < c7Items.length ∧
      (0 : Nat) < (normalizeItems c7Items (fun _ => "t")).length) :=
  ⟨(normalizeItems_spec c7Items (fun _ => "t") (fun _ => "u")).1,
    by decide, by decide⟩

/-! ### C4: addItem rejection leaves the list untouched -/

/-- A fixed nonce environment used for concrete witnesses. -/
def noNonce : Nat → String := fun _ => "n"

/-- C4: outside of a batch callback (`isBatching = false`, which holds in
every quiescent manager), `addItem` with a key already present in the list,
or with an insertion index outside `[0, length]`, reports an error and
returns the manager unchanged — so `getItems()` before and after agree. -/
theorem addItem_reject_spec (m : Manager) (item : Item) (index : Option Int)
    (nonce : Nat → String) (hb : m.isBatching = false)
    (h : m.items.any (fun i => i.key == item.key) = true ∨
         index.getD (m.items.length : Int) < 0 ∨
         (m.items.length : Int) < index.getD (m.items.length : Int)) :
    (addItem m item index nonce).1 = m ∧
    (addItem m item index nonce).2.isSome = true := by
  by_cases hd : m.destroyed
  · simp [addItem, hd]
  · by_cases hidx : index.getD (m.items.length : Int) < 0 ∨
        (m.items.length : Int) < index.getD (m.items.length : Int)
    · rcases hidx with h1 | h2
      · simp [addItem, hd, hb, h1]
      · have : (index.getD (m.items.length : Int) < 0 ∨
            index.getD (m.items.length : Int) > (m.items.length : Int)) := Or.inr h2
        simp [addItem, hd, hb, this]
    · have hdup : m.items.any (fun i => i.key == item.key) = true := by tauto
      have hvalid : ¬ (index.getD (m.items.length : Int) < 0 ∨
          index.getD (m.items.length : Int) > (m.items.length : Int)) := by
        push_neg
        push_neg at hidx
        exact ⟨hidx.1, hidx.2⟩
      simp [addItem, hd, hb, hvalid, hdup]

theorem addItem_reject_spec_witness :
    (mkManager {} noNonce).isBatching = false ∧
    ((addItem (mkManager {} noNonce) DEFAULT_HOME_ITEM none noNonce).1 =
      mkManager {} noNonce ∧
     (addItem (mkManager {} noNonce) DEFAULT_HOME_ITEM none noNonce).2.isSome = true) :=
  ⟨by decide,
   addItem_reject_spec (mkManager {} noNonce) DEFAULT_HOME_ITEM none noNonce
     (by decide) (Or.inl (by decide))⟩

/-! ### C8: destroy is idempotent and gates every mutation -/

/-- C8: `destroy()` is idempotent; after it, every mutation operation
(`setItems`, `addItem`, `removeItem`, `updateItem`, `batch`,
`toggleExpand`, `setExpanded`, `updateConfig`, `restoreSnapshot`,
`handleClick`, `handleDropdownSelect`) reports the usage error and leaves
the manager unchanged, while `getItems()` still returns the last committed
item list. -/
theorem destroy_spec (m : Manager) (L : List Item) (it : Item) (index : Option Int)
    (k : String) (u : ItemUpdates) (ops : List BatchOp) (thr : Bool) (e : Bool)
    (p : ConfigPatch) (s : Snapshot) (nonce : Nat → String) :
    destroy (destroy m) = destroy m ∧
    getItems (destroy m) = getItems m ∧
    setItems (destroy m) L nonce = (destroy m, some .destroyedError) ∧
    addItem (destroy m) it index nonce = (destroy m, some .destroyedError) ∧
    removeItem (destroy m) k nonce = (destroy m, false, some .destroyedError) ∧
    updateItem (destroy m) k u nonce = (destroy m, false, some .destroyedError) ∧
    batch (destroy m) ops thr nonce = (destroy m, some .destroyedError) ∧
    toggleExpand (destroy m) = (destroy m, some .destroyedError) ∧
    setExpanded (destroy m) e = (destroy m, some .destroyedError) ∧
    updateConfig (destroy m) p nonce = (destroy m, some .destroyedError) ∧
    restoreSnapshot (destroy m) s = (destroy m, some .destroyedError) ∧
    handleClick (destroy m) = (destroy m, some .destroyedError) ∧
    handleDropdownSelect (destroy m) = (destroy m, some .destroyedError) := by
  have hd : (destroy m).destroyed = true := by
    by_cases h : m.destroyed <;> simp [destroy, h]
  have hitems : (destroy m).items = m.items := by
    by_cases h : m.destroyed <;> simp [destroy, h]
  have hidem : destroy (destroy m) = destroy m := by
    by_cases h : m.destroyed <;> simp [destroy, h]
  refine ⟨hidem, by simp [getItems, deepClone, hitems], ?_, ?_, ?_, ?_,
    ?_, ?_, ?_, ?_, ?_, ?_, ?_⟩
  · simp [setItems, hd]
  · simp [addItem, hd]
  · simp [removeItem, hd]
  · simp [updateItem, hd]
  · simp [batch, hd]
  · simp [toggleExpand, hd]
  · simp [setExpanded, hd]
  · simp [updateConfig, hd]
  · simp [restoreSnapshot, hd]
  · simp [handleClick, hd]
  · simp [handleDropdownSelect, hd]

/-! ### Frame lemmas for the manager's private helpers -/

@[simp] theorem saveToHistory_items (m : Manager) : (saveToHistory m).items = m.items := by
  unfold saveToHistory; dsimp only; split <;> split <;> rfl

@[simp] theorem saveToHistory_expanded (m : Manager) :
    (saveToHistory m).expanded = m.expanded := by
  unfold saveToHistory; dsimp only; split <;> split <;> rfl

@[simp] theorem saveToHistory_version (m : Manager) :
    (saveToHistory m).version = m.version := by
  unfold saveToHistory; dsimp only; split <;> split <;> rfl

@[simp] theorem saveToHistory_config (m : Manager) :
    (saveToHistory m).config = m.config := by
  unfold saveToHistory; dsimp only; split <;> split <;> rfl

@[simp] theorem saveToHistory_visibleItems (m : Manager) :
    (saveToHistory m).visibleItems = m.visibleItems := by
  unfold saveToHistory; dsimp only; split <;> split <;> rfl

@[simp] theorem saveToHistory_isBatching (m : Manager) :
    (saveToHistory m).isBatching = m.isBatching := by
  unfold saveToHistory; dsimp only; split <;> split <;> rfl

@[simp] theorem saveToHistory_destroyed (m : Manager) :
    (saveToHistory m).destroyed = m.destroyed := by
  unfold saveToHistory; dsimp only; split <;> split <;> rfl

@[simp] theorem saveToHistory_batchQueue (m : Manager) :
    (saveToHistory m).batchQueue = m.batchQueue := by
  unfold saveToHistory; dsimp only; split <;> split <;> rfl

@[simp] theorem updateState_items (m : Manager) (p : StatePatch) :
    (updateState m p).items = p.items.getD m.items := by
  unfold updateState; dsimp only; split
  · rw [saveToHistory_items]
  · rfl

@[simp] theorem updateState_expanded (m : Manager) (p : StatePatch) :
    (updateState m p).expanded = p.expanded.getD m.expanded := by
  unfold updateState; dsimp only; split
  · rw [saveToHistory_expanded]
  · rfl

@[simp] theorem updateState_version (m : Manager) (p : StatePatch) :
    (updateState m p).version = m.version + 1 := by
  unfold updateState; dsimp only; split
  · rw [saveToHistory_version]
  · rfl

@[simp] theorem updateState_config (m : Manager) (p : StatePatch) :
    (updateState m p).config = m.config := by
  unfold updateState; dsimp only; split
  · rw [saveToHistory_config]
  · rfl

@[simp] theorem updateState_visibleItems (m : Manager) (p : StatePatch) :
    (updateState m p).visibleItems = p.visibleItems.getD m.visibleItems := by
  unfold updateState; dsimp only; split
  · rw [saveToHistory_visibleItems]
  · rfl

@[simp] theorem updateState_isBatching (m : Manager) (p : StatePatch) :
    (updateState m p).isBatching = m.isBatching := by
  unfold updateState; dsimp only; split
  · rw [saveToHistory_isBatching]
  · rfl

@[simp] theorem updateState_destroyed (m : Manager) (p : StatePatch) :
    (updateState m p).destroyed = m.destroyed := by
  unfold updateState; dsimp only; split
  · rw [saveToHistory_destroyed]
  · rfl

@[simp] theorem setItemsU_items (m : Manager) (L : List Item) (nonce : Nat → String) :
    (setItemsU m L nonce).items = buildItems m.config L nonce := by
  unfold setItemsU; rw [updateState_items]; rfl

@[simp] theorem setItemsU_expanded (m : Manager) (L : List Item) (nonce : Nat → String) :
    (setItemsU m L nonce).expanded = false := by
  unfold setItemsU; rw [updateState_expanded]; rfl

@[simp] theorem setItemsU_version (m : Manager) (L : List Item) (nonce : Nat → String) :
    (setItemsU m L nonce).version = m.version + 1 := by
  unfold setItemsU; rw [updateState_version]

@[simp] theorem setItemsU_config (m : Manager) (L : List Item) (nonce : Nat → String) :
    (setItemsU m L nonce).config = m.config := by
  unfold setItemsU; rw [updateState_config]

/-! ### findIndex lemmas -/

theorem findIndex_ge_neg_one {α : Type} (p : α → Bool) (l : List α) :
    -1 ≤ findIndex p l := by
  induction l with
  | nil => simp [findIndex]
  | cons hd rest ih =>
    unfold findIndex; dsimp only
    split
    · omega
    · split
      · omega
      · omega

theorem findIndex_eq_neg_one {α : Type} (p : α → Bool) (l : List α) :
    findIndex p l = -1 ↔ l.any p = false := by
  induction l with
  | nil => simp [findIndex]
  | cons hd rest ih =>
    unfold findIndex; dsimp only
    by_cases hp : p hd
    · simp [hp]
    · rw [if_neg hp]
      by_cases hr : findIndex p rest = -1
      · rw [if_pos hr]
        simp [hp, ih.1 hr]
      · rw [if_neg hr]
        have hge := findIndex_ge_neg_one p rest
        constructor
        · intro h; exact absurd h (by omega)
        · intro h
          simp only [List.any_cons, Bool.or_eq_false_iff] at h
          exact absurd (ih.2 h.2) hr

theorem findIndex_nonneg_of_ne {α : Type} (p : α → Bool) (l : List α)
    (h : findIndex p l ≠ -1) : 0 ≤ findIndex p l := by
  have hge := findIndex_ge_neg_one p l
  omega

theorem findIndex_found {α : Type} (p : α → Bool) (l : List α) (d : α)
    (h : findIndex p l ≠ -1) :
    (findIndex p l).toNat < l.length ∧
    p (l.getD (findIndex p l).toNat d) = true := by
  induction l with
  | nil => simp [findIndex] at h
  | cons hd rest ih =>
    by_cases hp : p hd
    · simp [findIndex, hp]
    · unfold findIndex at h ⊢
      dsimp only at h ⊢
      rw [if_neg hp] at h ⊢
      by_cases hr : findIndex p rest = -1
      · rw [if_pos hr] at h; exact absurd rfl h
      · rw [if_neg hr] at h ⊢
        have hnn := findIndex_nonneg_of_ne p rest hr
        have h1 : (findIndex p rest + 1).toNat = (findIndex p rest).toNat + 1 := by
          omega
        rw [h1]
        have := ih hr
        simp only [List.length_cons, List.getD_cons_succ]
        exact ⟨by omega, this.2⟩

/-! ### buildItems and setItems characterization -/

theorem normalizeItemsAux_any_home (nonce : Nat → String) (i : Nat) (l : List Item) :
    (normalizeItemsAux nonce i l).any (fun it => it.key == "home") =
      l.any (fun it => it.key == "home") := by
  induction l generalizing i with
  | nil => rfl
  | cons hd rest ih =>
    by_cases hk : hd.key = ""
    · simp only [normalizeItemsAux, if_pos hk, List.any_cons, ih]
      have h1 : (generateKey ("item-" ++ toString i) (nonce i) == "home") = false := by
        simp [generateKey_item_ne_home i (nonce i)]
      have h2 : (hd.key == "home") = false := by
        rw [hk]; decide
      rw [h1, h2]
    · simp only [normalizeItemsAux, if_neg hk, List.any_cons, ih]

/-- `normalizeItems` leaves the presence of the `home` key unchanged
(generated keys all start with `item-`). -/
theorem normalizeItems_any_home (l : List Item) (nonce : Nat → String) :
    (normalizeItems l nonce).any (fun it => it.key == "home") =
      l.any (fun it => it.key == "home") :=
  normalizeItemsAux_any_home nonce 0 l

/-! ### C6: home injection on setItems -/

/-- C6: with `showHome = true` on a live manager, `setItems(L)` commits the
configured home item prepended to the normalized `L` when no item of `L`
has key `home`, and commits the normalized `L` unchanged when some item of
`L` already has that key (no duplication). -/
theorem setItems_home_spec (m : Manager) (L : List Item) (nonce : Nat → String)
    (hd : m.destroyed = false) (hs : m.config.showHome = true) :
    (setItems m L nonce).2 = none ∧
    (L.any (fun it => it.key == "home") = false →
      (setItems m L nonce).1.items = m.config.homeItem :: normalizeItems L nonce) ∧
    (L.any (fun it => it.key == "home") = true →
      (setItems m L nonce).1.items = normalizeItems L nonce) := by
  have hset : (setItems m L nonce).1 = setItemsU m L nonce := by
    simp [setItems, hd]
  refine ⟨by simp [setItems, hd], ?_, ?_⟩
  · intro hnone
    rw [hset, setItemsU_items]
    unfold buildItems
    rw [if_pos]
    constructor
    · exact hs
    · rw [normalizeItems_any_home, hnone]
      exact Bool.false_ne_true
  · intro hsome
    rw [hset, setItemsU_items]
    unfold buildItems
    rw [if_neg]
    intro hcontra
    rw [normalizeItems_any_home, hsome] at hcontra
    exact hcontra.2 rfl

/-- Concrete data for the spec's C6 scenario. -/
def c6Manager : Manager :=
  mkManager { items := [{ key := "home", label := "首页", path := some "/" }] } noNonce

def c6NewItems : List Item :=
  [{ key := "a", label := "A" }, { key := "b", label := "B" }]

theorem setItems_home_spec_witness :
    (c6Manager.destroyed = false ∧ c6Manager.config.showHome = true) ∧
    (setItems c6Manager c6NewItems noNonce).1.items =
      c6Manager.config.homeItem :: normalizeItems c6NewItems noNonce ∧
    ((setItems c6Manager c6NewItems noNonce).1.items.map Item.key =
      ["home", "a", "b"]) :=
  ⟨⟨by decide, by decide⟩,
   ((setItems_home_spec c6Manager c6NewItems noNonce (by decide) (by decide)).2.1
      (by decide)),
   by decide⟩

/-! ### Key-map transfer lemmas -/

theorem any_key_eq_map (l : List Item) (s : String) :
    l.any (fun it => it.key == s) = (l.map Item.key).any (fun k => k == s) := by
  induction l with
  | nil => rfl
  | cons hd rest ih => simp [ih]

theorem any_key_of_map_key_eq {l₁ l₂ : List Item}
    (h : l₁.map Item.key = l₂.map Item.key) (s : String) :
    l₁.any (fun it => it.key == s) = l₂.any (fun it => it.key == s) := by
  rw [any_key_eq_map, any_key_eq_map, h]

theorem keys_ne_empty_of_map_key_eq {l₁ l₂ : List Item}
    (h : l₁.map Item.key = l₂.map Item.key) (hk : ∀ it ∈ l₂, it.key ≠ "") :
    ∀ it ∈ l₁, it.key ≠ "" := by
  intro it hit
  have hmem : it.key ∈ l₂.map Item.key := by
    rw [← h]; exact List.mem_map_of_mem Item.key hit
  rcases List.mem_map.1 hmem with ⟨it₂, hit₂, hkey⟩
  rw [← hkey]
  exact hk it₂ hit₂

theorem set_applyUpdates_map_key (l : List Item) (i : Nat) (u : ItemUpdates) :
    (l.set i (applyUpdates (l.getD i blankItem) u)).map Item.key = l.map Item.key := by
  induction l generalizing i with
  | nil => rfl
  | cons hd rest ih =>
    cases i with
    | zero => simp [applyUpdates]
    | succ k =>
      show (hd :: rest.set k
        (applyUpdates ((hd :: rest).getD (k + 1) blankItem) u)).map Item.key =
          (hd :: rest).map Item.key
      rw [List.getD_cons_succ]
      simp only [List.map_cons]
      rw [ih k]

/-- `buildItems` returns its input unchanged when every key is non-empty and
the `home` key is already present whenever `showHome` demands one. -/
theorem buildItems_of_wf (cfg : Config) (L : List Item) (nonce : Nat → String)
    (hk : ∀ it ∈ L, it.key ≠ "")
    (hh : cfg.showHome = true → L.any (fun it => it.key == "home") = true) :
    buildItems cfg L nonce = L := by
  unfold buildItems
  rw [normalizeItems_of_keys_ne_empty L nonce hk]
  rw [if_neg]
  intro hcontra
  exact hcontra.2 (by rw [hh hcontra.1])

/-! ### C10: updateItem merges in place and never touches the key -/

/-- C10: on a live, non-batching manager whose items are well-formed (keys
non-empty, and a `home` item present whenever `showHome` is on, as every
list committed through `setItems` is): for a key present in the list,
`updateItem` returns `true` and commits exactly the list with the matching
item replaced by the field-merge — whose `key` is unchanged, since
`applyUpdates` cannot write `key` at all; for an absent key it returns
`false` and leaves the manager untouched. -/
theorem updateItem_spec (m : Manager) (k : String) (u : ItemUpdates)
    (nonce : Nat → String)
    (hd : m.destroyed = false) (hb : m.isBatching = false)
    (hk : ∀ it ∈ m.items, it.key ≠ "")
    (hh : m.config.showHome = true → m.items.any (fun it => it.key == "home") = true) :
    (∀ it, (applyUpdates it u).key = it.key) ∧
    (m.items.any (fun it => it.key == k) = true →
      (updateItem m k u nonce).2.1 = true ∧
      (updateItem m k u nonce).1.items =
        m.items.set (findIndex (fun it => it.key == k) m.items).toNat
          (applyUpdates
            (m.items.getD (findIndex (fun it => it.key == k) m.items).toNat blankItem)
            u)) ∧
    (m.items.any (fun it => it.key == k) = false →
      updateItem m k u nonce = (m, false, none)) := by
  refine ⟨fun it => rfl, ?_, ?_⟩
  · intro hany
    have hne : findIndex (fun it => it.key == k) m.items ≠ -1 := by
      intro hc
      rw [findIndex_eq_neg_one] at hc
      rw [hany] at hc
      simp at hc
    have hupd : updateItem m k u nonce =
        (setItemsU m
          (m.items.set (findIndex (fun it => it.key == k) m.items).toNat
            (applyUpdates
              (m.items.getD (findIndex (fun it => it.key == k) m.items).toNat blankItem)
              u)) nonce,
         true, none) := by
      simp only [updateItem, hd, hb, Bool.false_eq_true, if_false]
      rw [if_neg hne]
    rw [hupd]
    refine ⟨rfl, ?_⟩
    dsimp only
    rw [setItemsU_items]
    apply buildItems_of_wf
    · exact keys_ne_empty_of_map_key_eq (set_applyUpdates_map_key _ _ _) hk
    · intro hsh
      rw [any_key_of_map_key_eq (set_applyUpdates_map_key _ _ _) "home"]
      exact hh hsh
  · intro hany
    have heq : findIndex (fun it => it.key == k) m.items = -1 :=
      (findIndex_eq_neg_one _ _).2 hany
    simp only [updateItem, hd, hb, Bool.false_eq_true, if_false]
    rw [if_pos heq]

/-- Concrete manager for the C10 witness. -/
def c10M : Manager :=
  mkManager { items := [{ key := "a", label := "A" }, { key := "b", label := "B" }] }
    noNonce

def c10U : ItemUpdates := { label := some "X" }

theorem updateItem_spec_witness :
    (c10M.destroyed = false ∧ c10M.isBatching = false ∧
     c10M.items.any (fun it => it.key == "a") = true) ∧
    ((updateItem c10M "a" c10U noNonce).2.1 = true ∧
     (updateItem c10M "a" c10U noNonce).1.items =
       c10M.items.set (findIndex (fun it => it.key == "a") c10M.items).toNat
         (applyUpdates
           (c10M.items.getD (findIndex (fun it => it.key == "a") c10M.items).toNat
             blankItem)
           c10U)) :=
  ⟨⟨by decide, by decide, by decide⟩,
   (updateItem_spec c10M "a" c10U noNonce (by decide) (by decide) (by decide)
     (by decide)).2.1 (by decide)⟩

/-! ### C2: batch commits once but records no history entry

In the source, `batch` runs `executeBatch()` inside the `try` block, before
the `finally` clause resets `isBatching`; the commit therefore reaches
`updateState` while `isBatching` is still `true`, and the
`enableHistory && !isBatching` guard skips `saveToHistory`.  A successful
batch thus bumps the version exactly once and applies the queued operations,
but appends no history entry at all — the spec demands exactly one. -/

def c2M : Manager :=
  mkManager { enableHistory := some true, showHome := some false } noNonce

def c2R : Manager × Option MError :=
  batch c2M [.add { key := "a", label := "A" } none] false noNonce

/-- C2 (code-bug evidence, evaluated at the failing input): on a fresh
history-enabled manager, a successful batch queuing one `addItem` commits
the item and bumps the version by exactly one, yet leaves the history
exactly as it was (still only the initial snapshot), where the claim and
spec require exactly one new entry; and a throwing callback propagates the
exception with the batching flag cleared and items, version and history
unchanged. -/
theorem batch_spec_at_failing_input :
    c2M.config.enableHistory = true ∧
    c2M.history.length = 1 ∧
    c2R.2 = none ∧
    c2R.1.version = c2M.version + 1 ∧
    c2R.1.items.map Item.key = ["a"] ∧
    c2R.1.history = c2M.history ∧
    c2R.1.isBatching = false ∧
    batch c2M [.add { key := "a", label := "A" } none] true noNonce =
      (c2M, some .callbackError) := by
  decide

/-! ### History lemmas for undo/redo (C3) -/

theorem saveToHistory_historyIndex (m : Manager) :
    (saveToHistory m).historyIndex = ((saveToHistory m).history.length : Int) - 1 := by
  unfold saveToHistory
  dsimp only
  split <;> split <;>
    (simp only [List.length_drop, List.length_tail, List.length_append,
      List.length_cons, List.length_nil] <;> push_cast <;> omega)

theorem saveToHistory_ends_with (m : Manager)
    (hmax : 1 ≤ m.config.maxHistoryLength) :
    ∃ r, (saveToHistory m).history = r ++ [createSnapshot m] := by
  unfold saveToHistory
  dsimp only
  set pre := (if m.historyIndex < (m.history.length : Int) - 1 then
      m.history.take (m.historyIndex + 1).toNat
    else m.history) with hpre
  split
  · rename_i h
    have hlen : 1 ≤ pre.length := by
      have : (pre ++ [createSnapshot m]).length = pre.length + 1 := by simp
      omega
    refine ⟨pre.drop 1, ?_⟩
    dsimp only
    rw [List.drop_append_of_le_length hlen]
  · exact ⟨pre, rfl⟩

theorem saveToHistory_preserves_last (m : Manager) (s : Snapshot) (r0 : List Snapshot)
    (hh : m.history = r0 ++ [s])
    (hi : m.historyIndex = (m.history.length : Int) - 1)
    (hmax : 2 ≤ m.config.maxHistoryLength) :
    ∃ r, (saveToHistory m).history = r ++ [s, createSnapshot m] := by
  unfold saveToHistory
  dsimp only
  have hcond : ¬ (m.historyIndex < (m.history.length : Int) - 1) := by
    rw [hi]; omega
  rw [if_neg hcond, hh]
  have hcat : (r0 ++ [s]) ++ [createSnapshot m] = r0 ++ [s, createSnapshot m] := by
    simp
  split
  · rename_i hlen
    have hr0 : 1 ≤ r0.length := by
      have : ((r0 ++ [s]) ++ [createSnapshot m]).length = r0.length + 2 := by simp
      omega
    refine ⟨r0.drop 1, ?_⟩
    dsimp only
    rw [hcat, List.drop_append_of_le_length hr0]
  · exact ⟨r0, by rw [hcat]⟩

/-- With history enabled and outside a batch, `setItemsU` is a
`saveToHistory` of the patched state. -/
theorem setItemsU_eq_save (m : Manager) (A : List Item) (nonce : Nat → String)
    (he : m.config.enableHistory = true) (hb : m.isBatching = false) :
    setItemsU m A nonce = saveToHistory
      { m with
        items := buildItems m.config A nonce
        expanded := false
        visibleItems := calcVisible (buildItems m.config A nonce) m.config
        version := m.version + 1 } := by
  unfold setItemsU updateState
  dsimp only
  split
  · rfl
  · rename_i hcond
    exfalso
    apply hcond
    refine ⟨he, ?_⟩
    simp [hb]

@[simp] theorem restoreSnapshotWithoutHistory_items (m : Manager) (s : Snapshot) :
    (restoreSnapshotWithoutHistory m s).items = s.items := rfl

@[simp] theorem restoreSnapshotWithoutHistory_expanded (m : Manager) (s : Snapshot) :
    (restoreSnapshotWithoutHistory m s).expanded = s.expanded := rfl

@[simp] theorem restoreSnapshotWithoutHistory_history (m : Manager) (s : Snapshot) :
    (restoreSnapshotWithoutHistory m s).history = m.history := rfl

@[simp] theorem restoreSnapshotWithoutHistory_config (m : Manager) (s : Snapshot) :
    (restoreSnapshotWithoutHistory m s).config = m.config := rfl

theorem setItems_fst (m : Manager) (A : List Item) (n : Nat → String)
    (hd : m.destroyed = false) : (setItems m A n).1 = setItemsU m A n := by
  simp [setItems, hd]

/-! ### C3: undo/redo across two setItems commits -/

/-- C3 (amended: `maxHistoryLength ≥ 2` is additionally required, since a
bound of 1 evicts the `A` snapshot before `undo` runs): with history
enabled, `setItems(A); setItems(B); undo()` returns `true` and restores the
items and expanded flag recorded for `A`; `redo()` then returns `true` and
restores those recorded for `B`; neither call touches the history list; and
`undo` at the oldest snapshot, `redo` at the newest, or either call with
history disabled, return `false` leaving the manager unchanged. -/
theorem undo_redo_spec (m : Manager) (A B : List Item) (n1 n2 : Nat → String)
    (he : m.config.enableHistory = true) (hmax : 2 ≤ m.config.maxHistoryLength)
    (hd : m.destroyed = false) (hb : m.isBatching = false) :
    (∀ m' : Manager, (m'.config.enableHistory = false ∨ m'.historyIndex ≤ 0) →
      undo m' = some (m', false)) ∧
    (∀ m' : Manager, (m'.config.enableHistory = false ∨
        (m'.history.length : Int) - 1 ≤ m'.historyIndex) →
      redo m' = some (m', false)) ∧
    (∃ m3 m4 : Manager,
      undo (setItems (setItems m A n1).1 B n2).1 = some (m3, true) ∧
      m3.items = buildItems m.config A n1 ∧
      m3.expanded = false ∧
      m3.history = (setItems (setItems m A n1).1 B n2).1.history ∧
      redo m3 = some (m4, true) ∧
      m4.items = buildItems m.config B n2 ∧
      m4.expanded = false ∧
      m4.history = m3.history) := by
  refine ⟨?_, ?_, ?_⟩
  · intro m' h
    unfold undo
    rcases h with h | h
    · rw [if_pos (Or.inl (by simp [h]))]
    · rw [if_pos (Or.inr h)]
  · intro m' h
    unfold redo
    rcases h with h | h
    · rw [if_pos (Or.inl (by simp [h]))]
    · rw [if_pos (Or.inr h)]
  · -- the main scenario
    set bA := buildItems m.config A n1 with hbA
    set m1' : Manager :=
      { m with
        items := bA
        expanded := false
        visibleItems := calcVisible bA m.config
        version := m.version + 1 } with hm1'
    have hstep1 : (setItems m A n1).1 = saveToHistory m1' := by
      rw [setItems_fst m A n1 hd, setItemsU_eq_save m A n1 he hb]
    set m1 := (setItems m A n1).1 with hm1def
    have hm1cfg : m1.config = m.config := by
      rw [hstep1, saveToHistory_config]
    have hm1d : m1.destroyed = false := by
      rw [hstep1, saveToHistory_destroyed]; exact hd
    have hm1b : m1.isBatching = false := by
      rw [hstep1, saveToHistory_isBatching]; exact hb
    have hm1idx : m1.historyIndex = (m1.history.length : Int) - 1 := by
      rw [hstep1]; exact saveToHistory_historyIndex _
    obtain ⟨r, hr⟩ : ∃ r, m1.history = r ++ [createSnapshot m1'] := by
      rw [hstep1]
      exact saveToHistory_ends_with _
        (by exact (by omega : 1 ≤ m.config.maxHistoryLength))
    set s1 := createSnapshot m1' with hs1
    set m2' : Manager :=
      { m1 with
        items := buildItems m1.config B n2
        expanded := false
        visibleItems := calcVisible (buildItems m1.config B n2) m1.config
        version := m1.version + 1 } with hm2'
    have hstep2 : (setItems m1 B n2).1 = saveToHistory m2' := by
      rw [setItems_fst _ B n2 hm1d,
        setItemsU_eq_save _ B n2 (by rw [hm1cfg]; exact he) hm1b]
    set s2 := createSnapshot m2' with hs2
    obtain ⟨r', hr'⟩ := saveToHistory_preserves_last m2' s1 r
      (by exact hr) (by exact hm1idx)
      (by show 2 ≤ m1.config.maxHistoryLength
          rw [hm1cfg]; exact hmax)
    set m2 := (setItems m1 B n2).1 with hm2def
    have hm2hist : m2.history = r' ++ [s1, s2] := by
      rw [hstep2]; exact hr'
    have hm2idx : m2.historyIndex = (m2.history.length : Int) - 1 := by
      rw [hstep2]; exact saveToHistory_historyIndex _
    have hm2cfg : m2.config = m.config := by
      rw [hstep2, saveToHistory_config]
      exact hm1cfg
    have hlen2 : m2.history.length = r'.length + 2 := by
      rw [hm2hist]; simp
    have hidxval : m2.historyIndex = (r'.length : Int) + 1 := by
      rw [hm2idx, hlen2]; push_cast; ring
    have hcond : ¬ (¬ m2.config.enableHistory = true ∨ m2.historyIndex ≤ 0) := by
      push_neg
      refine ⟨by rw [hm2cfg]; exact he, by omega⟩
    have hget : m2.history.get? (m2.historyIndex - 1).toNat = some s1 := by
      rw [show (m2.historyIndex - 1).toNat = r'.length from by omega]
      rw [hm2hist, List.get?_append_right (Nat.le_refl r'.length)]
      simp
    set m3 : Manager :=
      { restoreSnapshotWithoutHistory m2 s1 with
        historyIndex := m2.historyIndex - 1 } with hm3
    have hundo : undo m2 = some (m3, true) := by
      unfold undo
      rw [if_neg hcond]
      dsimp only
      rw [hget]
    have hcond2 : ¬ (¬ m3.config.enableHistory = true ∨
        (m3.history.length : Int) - 1 ≤ m3.historyIndex) := by
      push_neg
      constructor
      · show m2.config.enableHistory = true
        rw [hm2cfg]; exact he
      · show m2.historyIndex - 1 < (m2.history.length : Int) - 1
        omega
    have hget2 : m3.history.get? (m3.historyIndex + 1).toNat = some s2 := by
      show m2.history.get? (m2.historyIndex - 1 + 1).toNat = some s2
      rw [show (m2.historyIndex - 1 + 1).toNat = r'.length + 1 from by omega]
      rw [hm2hist, List.get?_append_right (by omega)]
      rw [show r'.length + 1 - r'.length = 1 from by omega]
      rfl
    set m4 : Manager :=
      { restoreSnapshotWithoutHistory m3 s2 with
        historyIndex := m3.historyIndex + 1 } with hm4
    have hredo : redo m3 = some (m4, true) := by
      unfold redo
      rw [if_neg hcond2]
      dsimp only
      rw [hget2]
    refine ⟨m3, m4, hundo, ?_, rfl, rfl, hredo, ?_, rfl, rfl⟩
    · rfl
    · show buildItems m1.config B n2 = buildItems m.config B n2
      rw [hm1cfg]

/-- A history-enabled manager with `maxHistoryLength = 1`. -/
def c3Small : Manager :=
  mkManager { enableHistory := some true, maxHistoryLength := some 1 } noNonce

/-- A history-enabled manager with the default bound (50). -/
def c3M2 : Manager := mkManager { enableHistory := some true } noNonce

def c3A : List Item := [{ key := "a", label := "A" }]

def c3B : List Item := [{ key := "b", label := "B" }]

/-- C3 counterexample: with history enabled but `maxHistoryLength = 1`, the
`A` snapshot is evicted by the time `setItems(B)` commits, so
`setItems(A); setItems(B); undo()` returns `false` and leaves the state
unchanged — the claim as stated says every history-enabled manager returns
`true` there and restores `A`. -/
theorem undo_after_two_setItems_fails_small_bound :
    c3Small.config.enableHistory = true ∧
    undo (setItems (setItems c3Small c3A noNonce).1 c3B noNonce).1 =
      some ((setItems (setItems c3Small c3A noNonce).1 c3B noNonce).1, false) := by
  decide

theorem undo_redo_spec_witness :
    (c3M2.config.enableHistory = true ∧ 2 ≤ c3M2.config.maxHistoryLength ∧
     c3M2.destroyed = false ∧ c3M2.isBatching = false) ∧
    (∃ m3 m4 : Manager,
      undo (setItems (setItems c3M2 c3A noNonce).1 c3B noNonce).1 = some (m3, true) ∧
      m3.items = buildItems c3M2.config c3A noNonce ∧
      m3.expanded = false ∧
      m3.history = (setItems (setItems c3M2 c3A noNonce).1 c3B noNonce).1.history ∧
      redo m3 = some (m4, true) ∧
      m4.items = buildItems c3M2.config c3B noNonce ∧
      m4.expanded = false ∧
      m4.history = m3.history) :=
  ⟨⟨by decide, by decide, by decide, by decide⟩,
   (undo_redo_spec c3M2 c3A c3B noNonce noNonce (by decide) (by decide)
     (by decide) (by decide)).2.2⟩

/-! ### C5: the unique-key invariant over reachable states -/

/-- Well-keyed item list: every key non-empty and all keys pairwise
distinct. -/
def GoodItems (l : List Item) : Prop :=
  (∀ it ∈ l, it.key ≠ "") ∧ (l.map Item.key).Nodup

/-- A `homeItem` override that keeps the home key at `"home"`. -/
def HomePatchOK : Option ItemPatch → Prop
  | Option.none => True
  | Option.some p => p.key = none ∨ p.key = some "home"

/-- The invariant carried through the induction: well-keyed current items, a
home item keyed `"home"`, and well-keyed items in every history snapshot. -/
def Inv (m : Manager) : Prop :=
  GoodItems m.items ∧ m.config.homeItem.key = "home" ∧
    ∀ s ∈ m.history, GoodItems s.items

theorem GoodItems_of_map_key_eq {l₁ l₂ : List Item}
    (h : l₁.map Item.key = l₂.map Item.key) (hg : GoodItems l₂) : GoodItems l₁ :=
  ⟨keys_ne_empty_of_map_key_eq h hg.1, h ▸ hg.2⟩

theorem key_not_mem_of_any_false (l : List Item) (k : String)
    (h : l.any (fun j => j.key == k) = false) : k ∉ l.map Item.key := by
  intro hmem
  rcases List.mem_map.1 hmem with ⟨it, hit, hkey⟩
  have := (List.any_eq_false.1 h) it hit
  apply this
  rw [hkey]
  exact beq_self_eq_true k

theorem GoodItems_insertAt (l : List Item) (x : Item) (i : Nat)
    (hg : GoodItems l) (hk : x.key ≠ "")
    (hnot : l.any (fun j => j.key == x.key) = false) :
    GoodItems (insertAt l i x) := by
  constructor
  · intro it hit
    rcases List.mem_append.1 hit with h | h
    · rcases List.mem_append.1 h with h | h
      · exact hg.1 it (List.mem_of_mem_take h)
      · rw [List.mem_singleton.1 h]; exact hk
    · exact hg.1 it (List.mem_of_mem_drop h)
  · have hmap : (insertAt l i x).map Item.key =
        (l.map Item.key).take i ++ x.key :: (l.map Item.key).drop i := by
      simp [insertAt, List.map_take, List.map_drop]
    rw [hmap]
    have hperm := @List.perm_middle _ x.key
      ((l.map Item.key).take i) ((l.map Item.key).drop i)
    rw [hperm.nodup_iff]
    rw [List.take_append_drop]
    rw [List.nodup_cons]
    exact ⟨key_not_mem_of_any_false l x.key hnot, hg.2⟩

theorem GoodItems_filter (l : List Item) (p : Item → Bool) (hg : GoodItems l) :
    GoodItems (l.filter p) := by
  constructor
  · intro it hit
    exact hg.1 it (List.mem_filter.1 hit).1
  · exact ((List.filter_sublist l).map Item.key).nodup hg.2

/-- `buildItems` preserves well-keyedness when the home item is keyed
`"home"`. -/
theorem buildItems_good (cfg : Config) (L : List Item) (n : Nat → String)
    (hg : GoodItems L) (hhome : cfg.homeItem.key = "home") :
    GoodItems (buildItems cfg L n) := by
  unfold buildItems
  dsimp only
  rw [normalizeItems_of_keys_ne_empty L n hg.1]
  split
  · rename_i hcond
    constructor
    · intro it hit
      rcases List.mem_cons.1 hit with h | h
      · rw [h, hhome]; decide
      · exact hg.1 it h
    · rw [List.map_cons, List.nodup_cons, hhome]
      refine ⟨?_, hg.2⟩
      apply key_not_mem_of_any_false
      rcases Bool.eq_false_or_eq_true (L.any (fun it => it.key == "home")) with h | h
      · exact absurd h hcond.2
      · exact h
  · exact hg

@[simp] theorem createSnapshot_items (m : Manager) :
    (createSnapshot m).items = m.items := rfl

theorem saveToHistory_history_mem (m : Manager) :
    ∀ s ∈ (saveToHistory m).history, s ∈ m.history ∨ s = createSnapshot m := by
  intro s hs
  unfold saveToHistory at hs
  dsimp only at hs
  have step : ∀ (X : List Snapshot), s ∈ X ++ [createSnapshot m] →
      s ∈ X ∨ s = createSnapshot m := by
    intro X h
    rcases List.mem_append.1 h with h | h
    · exact Or.inl h
    · exact Or.inr (List.mem_singleton.1 h)
  split at hs <;> split at hs
  · rcases step _ (List.mem_of_mem_drop hs) with h | h
    · exact Or.inl (List.mem_of_mem_take h)
    · exact Or.inr h
  · rcases step _ hs with h | h
    · exact Or.inl (List.mem_of_mem_take h)
    · exact Or.inr h
  · rcases step _ (List.mem_of_mem_drop hs) with h | h
    · exact Or.inl h
    · exact Or.inr h
  · rcases step _ hs with h | h
    · exact Or.inl h
    · exact Or.inr h

theorem updateState_history_mem (m : Manager) (p : StatePatch) :
    ∀ s ∈ (updateState m p).history,
      s ∈ m.history ∨ s.items = p.items.getD m.items := by
  intro s hs
  unfold updateState at hs
  dsimp only at hs
  split at hs
  · rcases saveToHistory_history_mem _ s hs with h | h
    · left; exact h
    · right; rw [h]; rfl
  · left; exact hs

/-- `setItemsU` preserves the invariant for any well-keyed input. -/
theorem setItemsU_inv (m : Manager) (L : List Item) (n : Nat → String)
    (hinv : Inv m) (hg : GoodItems L) : Inv (setItemsU m L n) := by
  have hb := buildItems_good m.config L n hg hinv.2.1
  refine ⟨?_, ?_, ?_⟩
  · rw [setItemsU_items]; exact hb
  · rw [setItemsU_config]; exact hinv.2.1
  · intro s hs
    unfold setItemsU at hs
    rcases updateState_history_mem _ _ s hs with h | h
    · exact hinv.2.2 s h
    · have : s.items = buildItems m.config L n := h
      rw [this]; exact hb

theorem applyPatch_home_key (q : ItemPatch)
    (hq : q.key = none ∨ q.key = some "home") :
    (applyPatch DEFAULT_HOME_ITEM q).key = "home" := by
  unfold applyPatch
  dsimp only
  rcases hq with h | h <;> rw [h] <;> rfl

theorem saveToHistory_inv (m : Manager) (hinv : Inv m) : Inv (saveToHistory m) := by
  refine ⟨?_, ?_, ?_⟩
  · rw [saveToHistory_items]; exact hinv.1
  · rw [saveToHistory_config]; exact hinv.2.1
  · intro s hs
    rcases saveToHistory_history_mem m s hs with h | h
    · exact hinv.2.2 s h
    · rw [h, createSnapshot_items]; exact hinv.1

theorem updateState_inv (m : Manager) (p : StatePatch) (hinv : Inv m)
    (hg : GoodItems (p.items.getD m.items)) : Inv (updateState m p) := by
  refine ⟨?_, ?_, ?_⟩
  · rw [updateState_items]; exact hg
  · rw [updateState_config]; exact hinv.2.1
  · intro s hs
    rcases updateState_history_mem m p s hs with h | h
    · exact hinv.2.2 s h
    · rw [h]; exact hg

theorem mkManager_inv (c : ManagerConfig) (n : Nat → String)
    (hg : GoodItems c.items) (hp : HomePatchOK c.homeItem) :
    Inv (mkManager c n) := by
  have hhome : (match c.homeItem with
      | some hq => applyPatch DEFAULT_HOME_ITEM hq
      | none => DEFAULT_HOME_ITEM).key = "home" := by
    cases hco : c.homeItem with
    | none => rfl
    | some q =>
      rw [hco] at hp
      exact applyPatch_home_key q hp
  unfold mkManager
  dsimp only
  split
  · apply saveToHistory_inv
    refine ⟨?_, ?_, ?_⟩
    · exact buildItems_good _ c.items n hg hhome
    · exact hhome
    · intro s hs
      exact absurd hs (List.not_mem_nil s)
  · refine ⟨?_, ?_, ?_⟩
    · exact buildItems_good _ c.items n hg hhome
    · exact hhome
    · intro s hs
      exact absurd hs (List.not_mem_nil s)

theorem setItems_inv (m : Manager) (L : List Item) (n : Nat → String)
    (hinv : Inv m) (hg : GoodItems L) : Inv (setItems m L n).1 := by
  unfold setItems
  split
  · exact hinv
  · exact setItemsU_inv m L n hinv hg

theorem addItem_inv (m : Manager) (it : Item) (idx : Option Int) (n : Nat → String)
    (hinv : Inv m) (hk : it.key ≠ "") : Inv (addItem m it idx n).1 := by
  unfold addItem
  dsimp only
  split
  · exact hinv
  · split
    · exact ⟨hinv.1, hinv.2.1, hinv.2.2⟩
    · split
      · exact hinv
      · split
        · exact hinv
        · rename_i hdup
          apply setItemsU_inv m _ n hinv
          apply GoodItems_insertAt _ _ _ hinv.1 hk
          rcases Bool.eq_false_or_eq_true (m.items.any (fun i => i.key == it.key))
            with h | h
          · exact absurd h hdup
          · exact h

theorem removeItem_inv (m : Manager) (k : String) (n : Nat → String)
    (hinv : Inv m) : Inv (removeItem m k n).1 := by
  unfold removeItem
  dsimp only
  split
  · exact hinv
  · split
    · exact ⟨hinv.1, hinv.2.1, hinv.2.2⟩
    · split
      · exact hinv
      · exact setItemsU_inv m _ n hinv (GoodItems_filter _ _ hinv.1)

theorem updateItem_inv (m : Manager) (k : String) (u : ItemUpdates)
    (n : Nat → String) (hinv : Inv m) : Inv (updateItem m k u n).1 := by
  unfold updateItem
  dsimp only
  split
  · exact hinv
  · split
    · exact ⟨hinv.1, hinv.2.1, hinv.2.2⟩
    · split
      · exact hinv
      · exact setItemsU_inv m _ n hinv
          (GoodItems_of_map_key_eq (set_applyUpdates_map_key _ _ _) hinv.1)

theorem batch_inv (m : Manager) (ops : List BatchOp) (thr : Bool)
    (n : Nat → String) (hinv : Inv m)
    (hg : GoodItems (ops.foldl executeBatchStep m.items)) :
    Inv (batch m ops thr n).1 := by
  unfold batch
  dsimp only
  split
  · exact hinv
  · split
    · exact ⟨hinv.1, hinv.2.1, hinv.2.2⟩
    · have h1 : Inv (setItemsU { m with isBatching := true, batchQueue := ops }
          (ops.foldl executeBatchStep m.items) n) :=
        setItemsU_inv _ _ n ⟨hinv.1, hinv.2.1, hinv.2.2⟩ hg
      exact ⟨h1.1, h1.2.1, h1.2.2⟩

theorem setExpanded_inv (m : Manager) (e : Bool) (hinv : Inv m) :
    Inv (setExpanded m e).1 := by
  unfold setExpanded
  split
  · exact hinv
  · split
    · exact hinv
    · exact updateState_inv m _ hinv hinv.1

theorem toggleExpand_inv (m : Manager) (hinv : Inv m) : Inv (toggleExpand m).1 := by
  unfold toggleExpand
  split
  · exact hinv
  · exact setExpanded_inv m _ hinv

theorem updateConfig_inv (m : Manager) (p : ConfigPatch) (n : Nat → String)
    (hinv : Inv m) (hp : HomePatchOK p.homeItem) : Inv (updateConfig m p n).1 := by
  unfold updateConfig
  dsimp only
  split
  · exact hinv
  · set mA : Manager := { m with config := assignConfig m.config p } with hma
    have hinvA : Inv mA := ⟨hinv.1, hinv.2.1, hinv.2.2⟩
    set mB : Manager := (if p.maxItems.isSome ∨ p.itemsBeforeCollapse.isSome ∨
        p.itemsAfterCollapse.isSome then
        updateState mA { visibleItems := some (calcVisible mA.items mA.config) }
      else mA) with hmb
    have hinvB : Inv mB := by
      rw [hmb]
      split
      · exact updateState_inv mA _ hinvA hinvA.1
      · exact hinvA
    split
    · split
      · rename_i q heq
        apply setItemsU_inv _ _ n
        · refine ⟨hinvB.1, ?_, hinvB.2.2⟩
          apply applyPatch_home_key q
          rw [heq] at hp
          exact hp
        · exact GoodItems_filter _ _ hinvB.1
      · exact setItemsU_inv _ _ n hinvB (GoodItems_filter _ _ hinvB.1)
    · exact hinvB

theorem restoreSnapshot_inv (m : Manager) (s : Snapshot) (hinv : Inv m)
    (hg : GoodItems s.items) : Inv (restoreSnapshot m s).1 := by
  unfold restoreSnapshot
  split
  · exact hinv
  · exact updateState_inv m _ hinv hg

theorem undo_inv (m : Manager) (p : Manager × Bool) (hinv : Inv m)
    (h : undo m = some p) : Inv p.1 := by
  unfold undo at h
  split at h
  · simp only [Option.some.injEq] at h
    rw [← h]
    exact hinv
  · dsimp only at h
    split at h
    · rename_i s hget
      simp only [Option.some.injEq] at h
      rw [← h]
      exact ⟨hinv.2.2 s (List.get?_mem hget), hinv.2.1, hinv.2.2⟩
    · exact absurd h (by simp)

theorem redo_inv (m : Manager) (p : Manager × Bool) (hinv : Inv m)
    (h : redo m = some p) : Inv p.1 := by
  unfold redo at h
  split at h
  · simp only [Option.some.injEq] at h
    rw [← h]
    exact hinv
  · dsimp only at h
    split at h
    · rename_i s hget
      simp only [Option.some.injEq] at h
      rw [← h]
      exact ⟨hinv.2.2 s (List.get?_mem hget), hinv.2.1, hinv.2.2⟩
    · exact absurd h (by simp)

theorem clearHistory_inv (m : Manager) (hinv : Inv m) : Inv (clearHistory m) := by
  unfold clearHistory
  dsimp only
  have h0 : Inv { m with history := [], historyIndex := -1 } :=
    ⟨hinv.1, hinv.2.1, fun s hs => absurd hs (List.not_mem_nil s)⟩
  split
  · exact saveToHistory_inv _ h0
  · exact h0

theorem destroy_inv (m : Manager) (hinv : Inv m) : Inv (destroy m) := by
  unfold destroy
  split
  · exact hinv
  · exact ⟨hinv.1, hinv.2.1, fun s hs => absurd hs (List.not_mem_nil s)⟩

/-- Manager states reachable through the public command surface, with the
well-keyedness side conditions of the amended claim on every externally
supplied item list: constructor and `setItems` inputs and `restoreSnapshot`
snapshots are well-keyed, `addItem` inputs carry a key, `homeItem`
overrides keep the `home` key, and each batch's queued operations yield a
well-keyed list when applied to the pre-batch items. -/
inductive Reach : Manager → Prop where
  | init (c : ManagerConfig) (n : Nat → String) (hg : GoodItems c.items)
      (hp : HomePatchOK c.homeItem) : Reach (mkManager c n)
  | setItemsR (m : Manager) (L : List Item) (n : Nat → String) (hm : Reach m)
      (hg : GoodItems L) : Reach (setItems m L n).1
  | addItemR (m : Manager) (it : Item) (idx : Option Int) (n : Nat → String)
      (hm : Reach m) (hk : it.key ≠ "") : Reach (addItem m it idx n).1
  | removeItemR (m : Manager) (k : String) (n : Nat → String) (hm : Reach m) :
      Reach (removeItem m k n).1
  | updateItemR (m : Manager) (k : String) (u : ItemUpdates) (n : Nat → String)
      (hm : Reach m) : Reach (updateItem m k u n).1
  | batchR (m : Manager) (ops : List BatchOp) (thr : Bool) (n : Nat → String)
      (hm : Reach m) (hg : GoodItems (ops.foldl executeBatchStep m.items)) :
      Reach (batch m ops thr n).1
  | setExpandedR (m : Manager) (e : Bool) (hm : Reach m) : Reach (setExpanded m e).1
  | toggleExpandR (m : Manager) (hm : Reach m) : Reach (toggleExpand m).1
  | updateConfigR (m : Manager) (p : ConfigPatch) (n : Nat → String)
      (hm : Reach m) (hp : HomePatchOK p.homeItem) : Reach (updateConfig m p n).1
  | restoreSnapshotR (m : Manager) (s : Snapshot) (hm : Reach m)
      (hg : GoodItems s.items) : Reach (restoreSnapshot m s).1
  | undoR (m : Manager) (p : Manager × Bool) (hm : Reach m)
      (h : undo m = some p) : Reach p.1
  | redoR (m : Manager) (p : Manager × Bool) (hm : Reach m)
      (h : redo m = some p) : Reach p.1
  | clearHistoryR (m : Manager) (hm : Reach m) : Reach (clearHistory m)
  | destroyR (m : Manager) (hm : Reach m) : Reach (destroy m)
  | handleClickR (m : Manager) (hm : Reach m) : Reach (handleClick m).1
  | handleDropdownSelectR (m : Manager) (hm : Reach m) :
      Reach (handleDropdownSelect m).1

theorem reach_inv (m : Manager) (h : Reach m) : Inv m := by
  induction h with
  | init c n hg hp => exact mkManager_inv c n hg hp
  | setItemsR m L n hm hg ih => exact setItems_inv m L n ih hg
  | addItemR m it idx n hm hk ih => exact addItem_inv m it idx n ih hk
  | removeItemR m k n hm ih => exact removeItem_inv m k n ih
  | updateItemR m k u n hm ih => exact updateItem_inv m k u n ih
  | batchR m ops thr n hm hg ih => exact batch_inv m ops thr n ih hg
  | setExpandedR m e hm ih => exact setExpanded_inv m e ih
  | toggleExpandR m hm ih => exact toggleExpand_inv m ih
  | updateConfigR m p n hm hp ih => exact updateConfig_inv m p n ih hp
  | restoreSnapshotR m s hm hg ih => exact restoreSnapshot_inv m s ih hg
  | undoR m p hm h ih => exact undo_inv m p ih h
  | redoR m p hm h ih => exact redo_inv m p ih h
  | clearHistoryR m hm ih => exact clearHistory_inv m ih
  | destroyR m hm ih => exact destroy_inv m ih
  | handleClickR m hm ih =>
    unfold handleClick
    split <;> exact ih
  | handleDropdownSelectR m hm ih =>
    unfold handleDropdownSelect
    split <;> exact ih

/-- C5 (amended: the pairwise-distinct-key invariant holds for the states
reachable under well-keyed external inputs — `Reach` — but not
unconditionally, because `setItems` never validates its input keys): in
every reachable state the keys of `state.items` are pairwise distinct. -/
theorem unique_keys_invariant (m : Manager) (h : Reach m) :
    (m.items.map Item.key).Nodup :=
  (reach_inv m h).1.2

/-- C5 counterexample: the claim as stated fails — `setItems` accepts a
list with two items keyed `"a"` without any validation, committing a state
whose keys are not pairwise distinct. -/
theorem duplicate_keys_reachable :
    ¬ ((setItems (mkManager { showHome := some false } noNonce)
          [{ key := "a", label := "A" }, { key := "a", label := "B" }]
          noNonce).1.items.map Item.key).Nodup := by
  decide

theorem unique_keys_invariant_witness :
    ((setItems (mkManager { showHome := some false } noNonce)
        [{ key := "a", label := "A" }, { key := "b", label := "B" }]
        noNonce).1.items.map Item.key).Nodup :=
  unique_keys_invariant _
    (Reach.setItemsR _ _ noNonce
      (Reach.init { showHome := some false } noNonce
        (by constructor
            · intro it hit; cases hit
            · exact List.nodup_nil)
        trivial)
      (by constructor
          · intro it hit
            rcases List.mem_cons.1 hit with h | h
            · rw [h]; decide
            · rcases List.mem_cons.1 h with h2 | h2
              · rw [h2]; decide
              · cases h2
          · decide))

/-! ### C9: once-handlers -/

theorem runHandlers_invoked_cont (t : Nat → Bool) (hs : List HandlerInfo) :
    (runHandlers t true hs).1 = hs.map HandlerInfo.id := by
  induction hs with
  | nil => rfl
  | cons h rest ih =>
    by_cases ht : t h.id
    · simp [runHandlers, ht, ih]
    · simp [runHandlers, ht, ih]

theorem runHandlers_onces_cont (t : Nat → Bool) (hs : List HandlerInfo) :
    (runHandlers t true hs).2 = hs.filter (fun h => h.once && !(t h.id)) := by
  induction hs with
  | nil => rfl
  | cons h rest ih =>
    by_cases ht : t h.id
    · simp [runHandlers, ht, ih, List.filter_cons]
    · by_cases ho : h.once
      · simp [runHandlers, ht, ho, ih, List.filter_cons]
      · simp [runHandlers, ht, ho, ih, List.filter_cons]

theorem runHandlers_invoked_subset (t : Nat → Bool) (c : Bool) (hs : List HandlerInfo) :
    ∀ x ∈ (runHandlers t c hs).1, x ∈ hs.map HandlerInfo.id := by
  induction hs with
  | nil => intro x hx; cases hx
  | cons h rest ih =>
    intro x hx
    by_cases ht : t h.id
    · by_cases hc : c = true
      · subst hc
        simp only [runHandlers, ht, if_true] at hx
        rcases List.mem_cons.1 hx with h1 | h1
        · rw [h1]; exact List.mem_cons_self _ _
        · exact List.mem_cons_of_mem _ (ih x h1)
      · have hc' : c = false := by cases c <;> simp_all
        subst hc'
        simp only [runHandlers, ht, if_true, Bool.false_eq_true, if_false] at hx
        rcases List.mem_singleton.1 hx with h1
        rw [h1]; exact List.mem_cons_self _ _
    · simp only [runHandlers, ht, if_false] at hx
      rcases List.mem_cons.1 hx with h1 | h1
      · rw [h1]; exact List.mem_cons_self _ _
      · exact List.mem_cons_of_mem _ (ih x h1)

theorem lookup_map_replace (ev : String) (hs : List HandlerInfo)
    (l : List (String × List HandlerInfo)) (h : l.any (fun p => p.1 == ev) = true) :
    ((l.map (fun p => if p.1 == ev then (ev, hs) else p)).lookup ev).getD [] = hs := by
  induction l with
  | nil => simp at h
  | cons hd t ih =>
    by_cases hh : hd.1 = ev
    · have hbeq : (hd.1 == ev) = true := by simp [hh]
      rw [List.map_cons, if_pos hbeq, List.lookup_cons]
      simp
    · have hne : (hd.1 == ev) = false := by simp [hh]
      have hany : t.any (fun p => p.1 == ev) = true := by
        simp only [List.any_cons, hne, Bool.false_or] at h
        exact h
      have hlk : (ev == hd.1) = false := by
        simp [Ne.symm hh]
      simp only [List.map_cons, hne, Bool.false_eq_true, if_false]
      rw [List.lookup_cons]
      simp only [hlk]
      exact ih hany

theorem lookup_append_new (ev : String) (hs : List HandlerInfo)
    (l : List (String × List HandlerInfo)) (h : l.any (fun p => p.1 == ev) = false) :
    (((l ++ [(ev, hs)]).lookup ev)).getD [] = hs := by
  induction l with
  | nil => simp [List.lookup]
  | cons hd t ih =>
    simp only [List.any_cons, Bool.or_eq_false_iff] at h
    have hlk : (ev == hd.1) = false := by
      have : hd.1 ≠ ev := by
        intro hc
        rw [hc] at h
        simp at h
      simp [Ne.symm this]
    rw [List.cons_append, List.lookup_cons]
    simp only [hlk]
    exact ih h.2

theorem getHandlers_setHandlers (e : Emitter) (ev : String) (hs : List HandlerInfo) :
    getHandlers (setHandlers e ev hs) ev = hs := by
  unfold setHandlers getHandlers
  split
  · rename_i hany
    exact lookup_map_replace ev hs e.listeners hany
  · rename_i hany
    have h : e.listeners.any (fun p => p.1 == ev) = false := by
      rcases Bool.eq_false_or_eq_true (e.listeners.any (fun p => p.1 == ev)) with h | h
      · exact absurd h hany
      · exact h
    exact lookup_append_new ev hs e.listeners h

theorem getHandlers_deleteEvent (e : Emitter) (ev : String) :
    getHandlers (deleteEvent e ev) ev = [] := by
  unfold deleteEvent getHandlers
  have hnone : ∀ (l : List (String × List HandlerInfo)),
      ((l.filter (fun p => ¬ p.1 == ev)).lookup ev) = none := by
    intro l
    induction l with
    | nil => rfl
    | cons hd t ih =>
      rw [List.filter_cons]
      by_cases hh : hd.1 = ev
      · rw [if_neg (by simp [hh])]
        exact ih
      · rw [if_pos (by simp [hh])]
        rw [List.lookup_cons]
        have hlk : (ev == hd.1) = false := by simp [Ne.symm hh]
        simp only [hlk]
        exact ih
  rw [hnone]
  rfl

theorem findIndex_splice_countP_self {α : Type} (p : α → Bool) (l : List α) :
    (if findIndex p l = -1 then l
     else l.take (findIndex p l).toNat ++
          l.drop ((findIndex p l).toNat + 1)).countP p = l.countP p - 1 := by
  induction l with
  | nil => simp [findIndex]
  | cons h t ih =>
    by_cases hp : p h
    · rw [show findIndex p (h :: t) = 0 from by simp [findIndex, hp]]
      rw [if_neg (by decide)]
      show (t.countP p) = (h :: t).countP p - 1
      rw [List.countP_cons]
      simp [hp]
    · have hfi : findIndex p (h :: t) =
          if findIndex p t = -1 then -1 else findIndex p t + 1 := by
        simp [findIndex, hp]
      by_cases hft : findIndex p t = -1
      · rw [hfi, if_pos hft, if_pos rfl]
        have ht0 : t.countP p = 0 := by
          rw [List.countP_eq_zero]
          intro a ha
          exact (List.any_eq_false.1 ((findIndex_eq_neg_one p t).1 hft)) a ha
        rw [List.countP_cons, ht0]
        simp [hp]
      · have hnn := findIndex_ge_neg_one p t
        rw [hfi, if_neg hft, if_neg (by omega)]
        rw [show (findIndex p t + 1).toNat = (findIndex p t).toNat + 1 from by omega]
        rw [List.take_succ_cons, List.drop_succ_cons]
        rw [if_neg hft] at ih
        rw [List.cons_append, List.countP_cons, List.countP_cons, ih]
        have hpos : 0 < t.countP p := by
          have hany : t.any p = true := by
            rcases Bool.eq_false_or_eq_true (t.any p) with htr | hf
            · exact htr
            · exact absurd ((findIndex_eq_neg_one p t).2 hf) hft
          rcases List.any_eq_true.1 hany with ⟨a, ha, hpa⟩
          exact List.countP_pos.2 ⟨a, ha, hpa⟩
        simp only [hp, if_false]
        omega

theorem findIndex_splice_countP_ne {α : Type} (q p : α → Bool) (l : List α)
    (hqp : ∀ x, q x = true → p x = false) :
    (if findIndex q l = -1 then l
     else l.take (findIndex q l).toNat ++
          l.drop ((findIndex q l).toNat + 1)).countP p = l.countP p := by
  induction l with
  | nil => simp [findIndex]
  | cons h t ih =>
    by_cases hq : q h
    · rw [show findIndex q (h :: t) = 0 from by simp [findIndex, hq]]
      rw [if_neg (by decide)]
      show (t.countP p) = (h :: t).countP p
      rw [List.countP_cons]
      simp [hqp h hq]
    · have hfi : findIndex q (h :: t) =
          if findIndex q t = -1 then -1 else findIndex q t + 1 := by
        simp [findIndex, hq]
      by_cases hft : findIndex q t = -1
      · rw [hfi, if_pos hft, if_pos rfl]
      · have hnn := findIndex_ge_neg_one q t
        rw [hfi, if_neg hft, if_neg (by omega)]
        rw [show (findIndex q t + 1).toNat = (findIndex q t).toNat + 1 from by omega]
        rw [List.take_succ_cons, List.drop_succ_cons]
        rw [if_neg hft] at ih
        rw [List.cons_append, List.countP_cons, List.countP_cons, ih]

theorem getHandlers_off (e : Emitter) (ev : String) (j : Nat) :
    getHandlers (off e ev j) ev =
      (if findIndex (fun h => h.id == j) (getHandlers e ev) = -1 then getHandlers e ev
       else (getHandlers e ev).take
              (findIndex (fun h => h.id == j) (getHandlers e ev)).toNat ++
            (getHandlers e ev).drop
              ((findIndex (fun h => h.id == j) (getHandlers e ev)).toNat + 1)) := by
  unfold off
  dsimp only
  split
  · rfl
  · split
    · rename_i hemp
      rw [getHandlers_deleteEvent]
      exact (List.isEmpty_iff.1 hemp).symm
    · rw [getHandlers_setHandlers]

theorem countP_off_self (e : Emitter) (ev : String) (j : Nat) :
    (getHandlers (off e ev j) ev).countP (fun h => h.id == j) =
      (getHandlers e ev).countP (fun h => h.id == j) - 1 := by
  rw [getHandlers_off]
  exact findIndex_splice_countP_self _ _

theorem countP_off_ne (e : Emitter) (ev : String) (j id : Nat) (hne : j ≠ id) :
    (getHandlers (off e ev j) ev).countP (fun h => h.id == id) =
      (getHandlers e ev).countP (fun h => h.id == id) := by
  rw [getHandlers_off]
  apply findIndex_splice_countP_ne
  intro x hx
  have : x.id = j := by simpa using hx
  simp [this, hne]

theorem countP_foldl_off_le (ev : String) (id : Nat) (onces : List HandlerInfo) :
    ∀ (e : Emitter),
      (getHandlers (onces.foldl (fun acc info => off acc ev info.id) e) ev).countP
          (fun h => h.id == id) ≤
        (getHandlers e ev).countP (fun h => h.id == id) := by
  induction onces with
  | nil => intro e; exact Nat.le_refl _
  | cons o rest ih =>
    intro e
    rw [List.foldl_cons]
    refine Nat.le_trans (ih (off e ev o.id)) ?_
    by_cases ho : o.id = id
    · rw [ho, countP_off_self]
      omega
    · rw [countP_off_ne e ev o.id id ho]

theorem countP_foldl_off_zero (ev : String) (id : Nat) (onces : List HandlerInfo) :
    ∀ (e : Emitter),
      onces.countP (fun h => h.id == id) = 1 →
      (getHandlers e ev).countP (fun h => h.id == id) = 1 →
      (getHandlers (onces.foldl (fun acc info => off acc ev info.id) e) ev).countP
        (fun h => h.id == id) = 0 := by
  induction onces with
  | nil => intro e h1 _; simp at h1
  | cons o rest ih =>
    intro e h1 h2
    rw [List.foldl_cons]
    rw [List.countP_cons] at h1
    by_cases ho : o.id = id
    · have hbeq : (o.id == id) = true := by simp [ho]
      rw [hbeq] at h1
      rw [if_pos rfl] at h1
      have hoff : (getHandlers (off e ev o.id) ev).countP (fun h => h.id == id) = 0 := by
        rw [ho, countP_off_self, h2]
      have := countP_foldl_off_le ev id rest (off e ev o.id)
      omega
    · have hbeq : (o.id == id) = false := by simp [ho]
      rw [hbeq] at h1
      rw [if_neg (by simp)] at h1
      have h1' : rest.countP (fun h => h.id == id) = 1 := by omega
      have h2' : (getHandlers (off e ev o.id) ev).countP (fun h => h.id == id) = 1 := by
        rw [countP_off_ne e ev o.id id ho]; exact h2
      exact ih (off e ev o.id) h1' h2'

theorem count_map_id (hs : List HandlerInfo) (id : Nat) :
    (hs.map HandlerInfo.id).count id = hs.countP (fun h => h.id == id) := by
  induction hs with
  | nil => rfl
  | cons h rest ih => rw [List.map_cons, List.count_cons, List.countP_cons, ih]

theorem countP_pos_of_mem_map (hs : List HandlerInfo) (id : Nat)
    (hmem : id ∈ hs.map HandlerInfo.id) :
    0 < hs.countP (fun h => h.id == id) := by
  rcases List.mem_map.1 hmem with ⟨h, hh, hid⟩
  exact List.countP_pos.2 ⟨h, hh, by simp [hid]⟩

/-- C9 (amended: restricted to a handler whose single registration for the
event is a `once` entry, whose invocation does not throw, with
`continueOnError` enabled — its default; a throwing `once` handler is
invoked but stays subscribed, see the counterexample): the first emit
invokes the handler exactly once and unsubscribes it, and as long as it is
not re-registered, no later emit of the same event invokes it again. -/
theorem once_spec (e : Emitter) (ev : String) (id : Nat) (throwsOn : Nat → Bool)
    (hone : (getHandlers e ev).countP (fun h => h.id == id) = 1)
    (honce : ∀ h ∈ getHandlers e ev, h.id = id → h.once = true)
    (hnothrow : throwsOn id = false) :
    (emit e ev throwsOn true).2.2 = true ∧
    (emit e ev throwsOn true).2.1.count id = 1 ∧
    (getHandlers (emit e ev throwsOn true).1 ev).countP (fun h => h.id == id) = 0 ∧
    (∀ (e₂ : Emitter) (t : Nat → Bool) (c : Bool),
      (getHandlers e₂ ev).countP (fun h => h.id == id) = 0 →
      id ∉ (emit e₂ ev t c).2.1 ∧
      (getHandlers (emit e₂ ev t c).1 ev).countP (fun h => h.id == id) = 0) := by
  have hnonempty : ¬ ((getHandlers e ev).isEmpty = true) := by
    intro hc
    rw [List.isEmpty_iff.1 hc] at hone
    simp at hone
  have hemit : emit e ev throwsOn true =
      ((runHandlers throwsOn true (getHandlers e ev)).2.foldl
          (fun acc info => off acc ev info.id) e,
        (runHandlers throwsOn true (getHandlers e ev)).1, true) := by
    unfold emit
    rw [if_neg hnonempty]
  have honces : (runHandlers throwsOn true (getHandlers e ev)).2.countP
      (fun h => h.id == id) = 1 := by
    rw [runHandlers_onces_cont, List.countP_filter]
    rw [@List.countP_congr _ _ (fun h => h.id == id) _ ?_]
    · exact hone
    · intro x hx
      constructor
      · intro hc
        simp only [Bool.and_eq_true] at hc
        exact hc.1
      · intro hc
        have hxid : x.id = id := by simpa using hc
        have h1 := honce x hx hxid
        simp only [Bool.and_eq_true]
        refine ⟨hc, h1, ?_⟩
        rw [hxid, hnothrow]
        rfl
  refine ⟨by rw [hemit], ?_, ?_, ?_⟩
  · rw [hemit]
    dsimp only
    rw [runHandlers_invoked_cont, count_map_id]
    exact hone
  · rw [hemit]
    dsimp only
    exact countP_foldl_off_zero ev id _ e honces hone
  · intro e₂ t c h0
    by_cases hemp : (getHandlers e₂ ev).isEmpty = true
    · have : emit e₂ ev t c = (e₂, [], false) := by
        unfold emit
        rw [if_pos hemp]
      rw [this]
      dsimp only
      refine ⟨?_, h0⟩
      intro hx
      exact absurd hx (List.not_mem_nil id)
    · have hemit₂ : emit e₂ ev t c =
          ((runHandlers t c (getHandlers e₂ ev)).2.foldl
              (fun acc info => off acc ev info.id) e₂,
            (runHandlers t c (getHandlers e₂ ev)).1, true) := by
        unfold emit
        rw [if_neg hemp]
      rw [hemit₂]
      dsimp only
      constructor
      · intro hx
        have hsub := runHandlers_invoked_subset t c (getHandlers e₂ ev) id hx
        have := countP_pos_of_mem_map _ id hsub
        omega
      · have hle := countP_foldl_off_le ev id
          (runHandlers t c (getHandlers e₂ ev)).2 e₂
        omega

/-- C9 counterexample: a `once` handler whose invocation throws is invoked
on the first emit but never removed (the removal step runs only after a
successful call), so the second emit of the same event invokes it again —
contradicting the claim that the first emit unsubscribes every
once-handler. -/
theorem once_throwing_handler_stays :
    (emit (once { } "click" 1 0) "click" (fun _ => true) true).2.1 = [1] ∧
    (emit (once { } "click" 1 0) "click" (fun _ => true) true).1 =
      once { } "click" 1 0 ∧
    (emit (emit (once { } "click" 1 0) "click" (fun _ => true) true).1 "click"
      (fun _ => true) true).2.1 = [1] := by
  decide

theorem once_spec_witness :
    ((getHandlers (once { } "click" 7 0) "click").countP (fun h => h.id == 7) = 1) ∧
    ((emit (once { } "click" 7 0) "click" (fun _ => false) true).2.2 = true ∧
     (emit (once { } "click" 7 0) "click" (fun _ => false) true).2.1.count 7 = 1 ∧
     (getHandlers (emit (once { } "click" 7 0) "click" (fun _ => false) true).1
        "click").countP (fun h => h.id == 7) = 0) :=
  ⟨by decide,
   (once_spec (once { } "click" 7 0) "click" 7 (fun _ => false) (by decide)
      (by decide) (by decide)).1,
   (once_spec (once { } "click" 7 0) "click" 7 (fun _ => false) (by decide)
      (by decide) (by decide)).2.1,
   (once_spec (once { } "click" 7 0) "click" 7 (fun _ => false) (by decide)
      (by decide) (by decide)).2.2.1⟩

end Breadcrumb
